import Mathlib

/-!
Verification of the ReadLog device-to-device synchronization subsystem.

The merge engine is a shallow embedding of `importDB` in `src/db.ts`
(the variant returning `{ booksImported, logsImported }`): the Dexie
record store becomes an explicit `DB` value, the `rw` transaction becomes
an `Except`-valued body whose failure leaves the store untouched, and
JavaScript `Date` instants become integer millisecond timestamps (the
browser's local timezone is modelled as UTC, so `setHours(0,0,0,0)`
becomes flooring to a multiple of 86400000).

The snapshot decode check is embedded from `handleImport` in
`components/DataManagement.tsx`, and the crypto envelope from
`encryptData` / `decryptData` in `components/SyncModal.tsx`, with the
WebCrypto primitives (PBKDF2 key derivation, AES-GCM) modelled as an
ideal authenticated cipher: a derived key is the pair (passcode, salt)
and decryption succeeds exactly when key and nonce match.
-/

namespace ReadLog

/-- `status ∈ {reading, completed}` from the `Book` interface in `src/db.ts`. -/
inductive Status where
  | reading : Status
  | completed : Status
deriving DecidableEq

/-- A persisted Book row (`Book` interface in `src/db.ts`); `id` is the
Dexie auto-increment primary key, dates are millisecond timestamps. -/
structure Book where
  id : Nat
  title : String
  totalPages : Int
  startDate : Int
  lastReadDate : Int
  status : Status
deriving DecidableEq

/-- A persisted Session-Log row (`Log` interface in `src/db.ts`). -/
structure Log where
  id : Nat
  bookId : Nat
  date : Int
  page : Int
deriving DecidableEq

/-- The Dexie `ReadLogDB` store: two tables plus their auto-increment
counters (`++id` primary keys). -/
structure DB where
  books : List Book
  logs : List Log
  nextBookId : Nat
  nextLogId : Nat
deriving DecidableEq

/-- A Book record as found in a parsed foreign snapshot. `id = 0` models a
falsy `extBook.id` (absent or zero, the `if (extBook.id)` test in the code);
`title = none` models a record without an indexable `title` key, on which
`where(title).equals(undefined)` throws inside the transaction. -/
structure ExtBook where
  id : Nat
  title : Option String
  totalPages : Int
  startDate : Int
  lastReadDate : Int
  status : Status
deriving DecidableEq

/-- A Session-Log record of a foreign snapshot; `bookId = 0` models a falsy
foreign book reference. -/
structure ExtLog where
  bookId : Nat
  date : Int
  page : Int
deriving DecidableEq

/-- A parsed foreign snapshot: `data.books` and `data.logs` in `importDB`. -/
structure ExtData where
  books : List ExtBook
  logs : List ExtLog
deriving DecidableEq

/-- The one modelled abort cause of the merge transaction: IndexedDB's
DataError raised when a foreign record carries no indexable key. -/
inductive MergeErr where
  | dataError : MergeErr
deriving DecidableEq

/-- `db.books.where(title).equals(t).filter(b => b.totalPages === tp).first()`:
the title index enumerates equal-title rows in primary-key order, so this is
the first stored book (in id order) with the given natural key. -/
def findBook (books : List Book) (t : String) (tp : Int) : Option Book :=
  books.find? (fun b => b.title == t && b.totalPages == tp)

/-- `bookMap.get` on the transaction-scoped external-to-local id map;
`bookMap.set` prepends, so the most recent binding wins, like a JS `Map`. -/
def lookupMap (m : List (Nat × Nat)) (k : Nat) : Option Nat :=
  (m.find? (fun p => p.1 == k)).map (fun p => p.2)

/-- The union update applied to a matched local book (`db.books.update` call
in `importDB`): earliest start date, latest read date, `completed` if either
side is completed. The conditionals are the code's conditionals. -/
def unionBook (b : Book) (eb : ExtBook) : Book :=
  { b with
    startDate := if eb.startDate < b.startDate then eb.startDate else b.startDate,
    lastReadDate := if eb.lastReadDate > b.lastReadDate then eb.lastReadDate else b.lastReadDate,
    status := if eb.status = Status.completed ∨ b.status = Status.completed
              then Status.completed else Status.reading }

/-- `db.books.update(localId, {...})`: rewrite the row whose primary key is
`i` to its union with the foreign record. -/
def updBooks (books : List Book) (i : Nat) (eb : ExtBook) : List Book :=
  books.map (fun x => if x.id = i then unionBook x eb else x)

/-- `db.books.add({...bookData})` with the foreign `id` stripped: the row the
auto-increment key assigns to an inserted foreign book. -/
def newBookOf (st : DB) (eb : ExtBook) (t : String) : Book :=
  { id := st.nextBookId, title := t, totalPages := eb.totalPages,
    startDate := eb.startDate, lastReadDate := eb.lastReadDate, status := eb.status }

/-- `if (extBook.id) bookMap.set(extBook.id, localId)`: extend the map only
for a truthy foreign id. -/
def pushMap (bm : List (Nat × Nat)) (k v : Nat) : List (Nat × Nat) :=
  if k ≠ 0 then (k, v) :: bm else bm

/-- The store after the in-place union update of the row with key `i`. -/
def updateBookState (st : DB) (i : Nat) (eb : ExtBook) : DB :=
  { st with books := updBooks st.books i eb }

/-- The store after inserting a foreign book under a fresh auto-increment key. -/
def insertBookState (st : DB) (eb : ExtBook) (t : String) : DB :=
  { st with books := st.books ++ [newBookOf st eb t], nextBookId := st.nextBookId + 1 }

/-- One iteration of the `for (const extBook of extBooks)` loop in `importDB`:
match by natural key, union in place or insert (with the foreign `id`
stripped), and record the external-to-local id mapping when the foreign id
is truthy. A record without a `title` key aborts the transaction. -/
def processBook (st : DB) (bm : List (Nat × Nat)) (c : Nat) (eb : ExtBook) :
    Except MergeErr (DB × List (Nat × Nat) × Nat) :=
  match eb.title with
  | none => Except.error MergeErr.dataError
  | some t =>
    match findBook st.books t eb.totalPages with
    | some b =>
        Except.ok (updateBookState st b.id eb, pushMap bm eb.id b.id, c)
    | none =>
        Except.ok (insertBookState st eb t, pushMap bm eb.id st.nextBookId, c + 1)

/-- `new Date(extDate).setHours(0,0,0,0)` under the UTC model: the start of
the calendar day containing `t` (milliseconds). -/
def startOfDay (t : Int) : Int := (t / 86400000) * 86400000

/-- `setHours(23,59,59,999)`: the last millisecond of the day containing `t`. -/
def endOfDay (t : Int) : Int := startOfDay t + 86399999

/-- The calendar day index of an instant (used only in specifications). -/
def calendarDay (t : Int) : Int := t / 86400000

/-- `db.logs.add({bookId: localBookId, date: extDate, page: extLog.page})`:
the row inserted for a non-duplicate foreign log, keeping its exact
timestamp. -/
def newLogOf (st : DB) (localId : Nat) (el : ExtLog) : Log :=
  { id := st.nextLogId, bookId := localId, date := el.date, page := el.page }

/-- The store after inserting a non-duplicate foreign log. -/
def insertLogState (st : DB) (localId : Nat) (el : ExtLog) : DB :=
  { st with logs := st.logs ++ [newLogOf st localId el], nextLogId := st.nextLogId + 1 }

/-- One iteration of the `for (const extLog of extLogs)` loop in `importDB`:
resolve the owning book through the transaction map (skip on a falsy result),
skip when a log with the same book, page and calendar day already exists,
otherwise insert with the foreign log's exact timestamp. -/
def processLog (st : DB) (bm : List (Nat × Nat)) (c : Nat) (el : ExtLog) : DB × Nat :=
  match lookupMap bm el.bookId with
  | none => (st, c)
  | some localId =>
    if localId = 0 then (st, c)
    else
      if st.logs.any (fun l =>
          decide (l.bookId = localId ∧ l.page = el.page ∧
                  startOfDay el.date ≤ l.date ∧ l.date ≤ endOfDay el.date)) then
        (st, c)
      else
        (insertLogState st localId el, c + 1)

/-- The book half of the transaction body: fold `processBook` over the
foreign books, threading store, id map and `booksImported` count. -/
def bookPhase : List ExtBook → DB × List (Nat × Nat) × Nat →
    Except MergeErr (DB × List (Nat × Nat) × Nat)
  | [], acc => Except.ok acc
  | eb :: rest, acc =>
    match processBook acc.1 acc.2.1 acc.2.2 eb with
    | Except.ok acc' => bookPhase rest acc'
    | Except.error e => Except.error e

/-- The log half of the transaction body: fold `processLog` over the foreign
logs with the id map fixed, threading store and `logsImported` count. -/
def logPhase : List ExtLog → DB × Nat → List (Nat × Nat) → DB × Nat
  | [], acc, _ => acc
  | el :: rest, acc, bm => logPhase rest (processLog acc.1 bm acc.2 el) bm

/-- The body of the `db.transaction` callback in `importDB`. -/
def mergeBody (data : ExtData) (st : DB) : Except MergeErr (DB × Nat × Nat) :=
  match bookPhase data.books (st, [], 0) with
  | Except.error e => Except.error e
  | Except.ok (st1, bm, booksImported) =>
    let r := logPhase data.logs (st1, 0) bm
    Except.ok (r.1, booksImported, r.2)

/-- `importDB`: run the merge body as one atomic transaction. On success the
new store and `{ booksImported, logsImported }` are returned; if the body
throws, the transaction aborts and the store is exactly the old one. -/
def importDB (st : DB) (data : ExtData) : DB × Except MergeErr (Nat × Nat) :=
  match mergeBody data st with
  | Except.ok (st1, booksImported, logsImported) =>
      (st1, Except.ok (booksImported, logsImported))
  | Except.error e => (st, Except.error e)

/-- The log whose `date` is latest for a book, ties resolved to the later
stored row: `db.logs.where(bookId).equals(id).sortBy(date)` followed by
taking the last element (`BookDetail.tsx`), with the stable sort keeping
primary-key order among equal dates. -/
def latestLog (logs : List Log) : Option Log :=
  logs.foldl
    (fun acc l =>
      match acc with
      | none => some l
      | some a => if a.date ≤ l.date then some l else some a)
    none

/-- Derived current progress of a book: the page of its latest log, 0 when
it has none (`currentProgress` in `BookDetail.tsx`). -/
def currentProgress (st : DB) (bid : Nat) : Int :=
  match latestLog (st.logs.filter (fun l => l.bookId == bid)) with
  | some l => l.page
  | none => 0

/-- Store wellformedness guaranteed by Dexie: primary keys are unique and
the auto-increment counter is strictly above every existing key. -/
def WF (st : DB) : Prop :=
  (st.books.map (fun b => b.id)).Nodup ∧ ∀ b ∈ st.books, b.id < st.nextBookId

/-- No two stored books share a natural key `(title, totalPages)`. -/
def keyUnique (books : List Book) : Prop :=
  books.Pairwise (fun a b => a.title ≠ b.title ∨ a.totalPages ≠ b.totalPages)

/-- Some stored book carries the given natural key. -/
def keyExists (books : List Book) (t : String) (tp : Int) : Prop :=
  ∃ b ∈ books, b.title = t ∧ b.totalPages = tp

/-- How many stored books carry the given natural key. -/
def countKey (books : List Book) (t : String) (tp : Int) : Nat :=
  books.countP (fun b => b.title == t && b.totalPages == tp)

/-- The union-policy fields `(startDate, lastReadDate, status)` of the book
holding a natural key, if any. -/
def unionFields (books : List Book) (t : String) (tp : Int) :
    Option (Int × Int × Status) :=
  (findBook books t tp).map (fun b => (b.startDate, b.lastReadDate, b.status))

/-- Join of two status values: `completed` absorbs. -/
def statusJoin (a b : Status) : Status :=
  if a = Status.completed ∨ b = Status.completed then Status.completed else Status.reading

/-- Join of two union-field triples: earliest start, latest read, status join. -/
def join3 (a b : Int × Int × Status) : Int × Int × Status :=
  (min a.1 b.1, max a.2.1 b.2.1, statusJoin a.2.2 b.2.2)

/-- Join lifted to an absent side. -/
def jOpt (a b : Option (Int × Int × Status)) : Option (Int × Int × Status) :=
  match a, b with
  | none, b => b
  | some x, none => some x
  | some x, some y => some (join3 x y)

/-- Fold the join over a list of triples starting from an optional seed. -/
def opFold (o : Option (Int × Int × Status)) (l : List (Int × Int × Status)) :
    Option (Int × Int × Status) :=
  l.foldl
    (fun acc x =>
      some (match acc with
            | none => x
            | some a => join3 a x))
    o

/-- The union-field triples of the snapshot books carrying a natural key. -/
def keyTriples (ebs : List ExtBook) (t : String) (tp : Int) :
    List (Int × Int × Status) :=
  (ebs.filter (fun eb => decide (eb.title = some t ∧ eb.totalPages = tp))).map
    (fun eb => (eb.startDate, eb.lastReadDate, eb.status))

/-- The first-matching local book already absorbs the foreign record: its
start date is no later, its read date no earlier, and it is completed
whenever the foreign record is. -/
def Absorbed (books : List Book) (eb : ExtBook) : Prop :=
  ∃ t b, eb.title = some t ∧ findBook books t eb.totalPages = some b ∧
    b.startDate ≤ eb.startDate ∧ eb.lastReadDate ≤ b.lastReadDate ∧
    (eb.status = Status.completed → b.status = Status.completed)

/-- A log with the foreign log's resolved book, page and calendar day is
already stored (so the dedup test skips the foreign log). -/
def LogAbsorbed (logs : List Log) (bm : List (Nat × Nat)) (el : ExtLog) : Prop :=
  ∀ localId, lookupMap bm el.bookId = some localId → localId ≠ 0 →
    ∃ l ∈ logs, l.bookId = localId ∧ l.page = el.page ∧
      startOfDay el.date ≤ l.date ∧ l.date ≤ endOfDay el.date

/-- The id map `bookMap` as a function of a fixed store: for each foreign
book with a truthy id, bind it to the id of the store's first natural-key
match. -/
def mapOf (books : List Book) (ebs : List ExtBook) (bm : List (Nat × Nat)) :
    List (Nat × Nat) :=
  ebs.foldl
    (fun m eb =>
      match eb.title.bind (fun t => findBook books t eb.totalPages) with
      | some b => pushMap m eb.id b.id
      | none => m)
    bm

/-- Every row of `old` survives into `new` under the same primary key with
identity fields (`title`, `totalPages`) untouched. -/
def Keeps (old new : List Book) : Prop :=
  ∀ b ∈ old, ∃ b2 ∈ new, b2.id = b.id ∧ b2.title = b.title ∧ b2.totalPages = b.totalPages

/-- The first natural-key match survives under the same key: same id and
identity fields, start date only lowered, read date only raised, completed
status never lost. -/
def Tracks (old new : List Book) : Prop :=
  ∀ t tp b, findBook old t tp = some b →
    ∃ b2, findBook new t tp = some b2 ∧ b2.id = b.id ∧ b2.title = b.title ∧
      b2.totalPages = b.totalPages ∧ b2.startDate ≤ b.startDate ∧
      b.lastReadDate ≤ b2.lastReadDate ∧
      (b.status = Status.completed → b2.status = Status.completed)

/-- The decode check of `handleImport` in `DataManagement.tsx`: a parsed
backup payload with its optional `version` tag and its two record kinds;
absence models a JSON document lacking (or nulling) the field. -/
structure Payload where
  version : Option Int
  books : Option (List ExtBook)
  logs : Option (List ExtLog)

/-- The decode failure: `throw new Error('Invalid format')`. -/
inductive ImportErr where
  | malformedSnapshot : ImportErr
deriving DecidableEq

/-- `if (!data.books || !data.logs) throw new Error('Invalid format')`:
decoding succeeds exactly when both record kinds are present; the `version`
field is never examined. -/
def decodeBackup (p : Payload) : Except ImportErr (List ExtBook × List ExtLog) :=
  match p.books, p.logs with
  | some bs, some ls => Except.ok (bs, ls)
  | _, _ => Except.error ImportErr.malformedSnapshot

end ReadLog

namespace ReadLog.Crypto

/-- A PBKDF2-derived AES key, idealised as the (passcode, salt) pair that
determines it: derivation is deterministic and collision-free. -/
structure DerivedKey where
  pin : String
  salt : Nat
deriving DecidableEq

/-- An opaque byte region following the salt and nonce in a sealed blob:
either a genuine AES-GCM ciphertext-plus-tag, or corrupted bytes that are
no encryption at all. -/
inductive Ciphertext where
  | enc (key : DerivedKey) (iv : Nat) (plaintext : String) : Ciphertext
  | garbage (bytes : Nat) : Ciphertext
deriving DecidableEq

/-- The sealed blob `base64(salt ∥ iv ∥ ciphertext‖tag)`: base64 and the
fixed-width slicing at offsets 16 and 28 are lossless, so the blob is the
triple itself. -/
structure Sealed where
  salt : Nat
  iv : Nat
  ct : Ciphertext
deriving DecidableEq

/-- `crypto.subtle.deriveKey({name: PBKDF2, salt, ...}, pin, ...)`. -/
def deriveKey (pin : String) (salt : Nat) : DerivedKey := ⟨pin, salt⟩

/-- `crypto.subtle.decrypt({name: AES-GCM, iv}, key, ct)`: authenticated
decryption succeeds exactly when the ciphertext was produced with the same
key and nonce; anything else fails the tag check. -/
def aesGcmDecrypt (key : DerivedKey) (iv : Nat) (ct : Ciphertext) : Option String :=
  match ct with
  | Ciphertext.enc k i p => if k = key ∧ i = iv then some p else none
  | Ciphertext.garbage _ => none

/-- `encryptData(data, pin)` from `SyncModal.tsx`: derive a key from the pin
and a fresh salt, encrypt under a fresh nonce, and bundle salt, nonce and
ciphertext. The two random values are explicit arguments. -/
def encryptData (data : String) (pin : String) (salt iv : Nat) : Sealed :=
  { salt := salt, iv := iv, ct := Ciphertext.enc (deriveKey pin salt) iv data }

/-- The single failure kind of `decryptData`: `throw new Error('INVALID_PIN')`
from the catch-all handler — wrong passcode and corrupted data are
deliberately indistinguishable. -/
inductive CryptoError where
  | wrongPasscode : CryptoError
deriving DecidableEq

/-- `decryptData(blob, pin)` from `SyncModal.tsx`: split the blob, re-derive
the key from the supplied pin and the embedded salt, decrypt; every failure
is mapped by the catch-all to the one `wrongPasscode` kind. -/
def decryptData (blob : Sealed) (pin : String) : Except CryptoError String :=
  match aesGcmDecrypt (deriveKey pin blob.salt) blob.iv blob.ct with
  | some p => Except.ok p
  | none => Except.error CryptoError.wrongPasscode

end ReadLog.Crypto

namespace ReadLog

/-! ## General list helpers -/

theorem find?_map_pred {α : Type} (f : α → α) (p : α → Bool)
    (h : ∀ x, p (f x) = p x) :
    ∀ l : List α, (l.map f).find? p = (l.find? p).map f := by
  intro l
  induction l with
  | nil => rfl
  | cons a l ih =>
    by_cases hp : p a = true
    · rw [List.map_cons, List.find?_cons_of_pos _ (by rw [h]; exact hp),
        List.find?_cons_of_pos _ hp, Option.map_some']
    · rw [List.map_cons, List.find?_cons_of_neg _ (by rw [h]; simpa using hp),
        List.find?_cons_of_neg _ (by simpa using hp), ih]

theorem find?_append_some {α : Type} {l₁ l₂ : List α} {p : α → Bool} {b : α}
    (h : l₁.find? p = some b) : (l₁ ++ l₂).find? p = some b := by
  induction l₁ with
  | nil => simp [List.find?] at h
  | cons a l ih =>
    by_cases hp : p a = true
    · rw [List.find?_cons_of_pos _ hp] at h
      rw [List.cons_append, List.find?_cons_of_pos _ hp]
      exact h
    · rw [List.find?_cons_of_neg _ (by simpa using hp)] at h
      rw [List.cons_append, List.find?_cons_of_neg _ (by simpa using hp)]
      exact ih h

theorem find?_append_none {α : Type} {l₁ l₂ : List α} {p : α → Bool}
    (h : l₁.find? p = none) : (l₁ ++ l₂).find? p = l₂.find? p := by
  induction l₁ with
  | nil => simp
  | cons a l ih =>
    by_cases hp : p a = true
    · rw [List.find?_cons_of_pos _ hp] at h
      exact absurd h (by simp)
    · rw [List.find?_cons_of_neg _ (by simpa using hp)] at h
      rw [List.cons_append, List.find?_cons_of_neg _ (by simpa using hp)]
      exact ih h

/-! ## Claim C6: seal/open round-trip and the single failure kind -/

/-- Claim C6: opening a sealed blob with the sealing passcode returns the
payload; opening with any other passcode fails; and every decryption or
authentication failure, a corrupted blob included, surfaces as the single
`wrongPasscode` kind. The WebCrypto primitives are modelled as an ideal
authenticated cipher (`Crypto.aesGcmDecrypt`). -/
theorem seal_open_correct (payload pin pin2 : String) (salt iv : Nat)
    (h : pin ≠ pin2) :
    Crypto.decryptData (Crypto.encryptData payload pin salt iv) pin = Except.ok payload
    ∧ Crypto.decryptData (Crypto.encryptData payload pin salt iv) pin2
        = Except.error Crypto.CryptoError.wrongPasscode
    ∧ ∀ (blob : Crypto.Sealed) (p : String),
        (∃ s, Crypto.decryptData blob p = Except.ok s)
        ∨ Crypto.decryptData blob p = Except.error Crypto.CryptoError.wrongPasscode := by
  refine ⟨?_, ?_, ?_⟩
  · simp [Crypto.decryptData, Crypto.encryptData, Crypto.aesGcmDecrypt]
  · have hk : Crypto.deriveKey pin salt ≠ Crypto.deriveKey pin2 salt := by
      simpa [Crypto.deriveKey] using h
    simp [Crypto.decryptData, Crypto.encryptData, Crypto.aesGcmDecrypt, hk]
  · intro blob p
    cases hd : Crypto.aesGcmDecrypt (Crypto.deriveKey p blob.salt) blob.iv blob.ct with
    | none => right; simp [Crypto.decryptData, hd]
    | some s => left; exact ⟨s, by simp [Crypto.decryptData, hd]⟩

/-- Witness for C6 at concrete inputs. -/
theorem seal_open_correct_witness :
    "1234" ≠ "9999"
    ∧ (Crypto.decryptData (Crypto.encryptData "payload" "1234" 3 7) "1234" = Except.ok "payload"
       ∧ Crypto.decryptData (Crypto.encryptData "payload" "1234" 3 7) "9999"
           = Except.error Crypto.CryptoError.wrongPasscode
       ∧ ∀ (blob : Crypto.Sealed) (p : String),
           (∃ s, Crypto.decryptData blob p = Except.ok s)
           ∨ Crypto.decryptData blob p = Except.error Crypto.CryptoError.wrongPasscode) :=
  ⟨by decide, seal_open_correct "payload" "1234" "9999" 3 7 (by decide)⟩

/-! ## Claim C7: decode of a backup payload -/

/-- Counterexample to claim C7: a payload carrying both record kinds and the
unrecognized version tag 999 decodes successfully — the claim says it must
fail with `MalformedSnapshot` (the exporter only ever writes `version: 1`). -/
theorem decode_accepts_unknown_version :
    decodeBackup { version := some 999, books := some [], logs := some [] }
      = Except.ok ([], [])
    ∧ (999 : Int) ≠ 1 := by
  exact ⟨rfl, by decide⟩

/-- Claim C7 (amended): decode succeeds exactly when both record kinds are
present, every failure is `malformedSnapshot`, and the version tag is never
examined. -/
theorem decode_malformed_iff (p : Payload) :
    ((∃ r, decodeBackup p = Except.ok r) ↔ (p.books.isSome ∧ p.logs.isSome))
    ∧ (∀ e, decodeBackup p = Except.error e → e = ImportErr.malformedSnapshot)
    ∧ (∀ v, decodeBackup { p with version := v } = decodeBackup p) := by
  obtain ⟨v, bs, ls⟩ := p
  cases bs <;> cases ls <;> simp [decodeBackup]

end ReadLog

namespace ReadLog

/-! ## Claim C2: matched foreign books are unioned in place -/

/-- Claim C2: a foreign book whose natural key `(title, totalPages)` matches
a stored book updates that book in place — earliest `startDate`, latest
`lastReadDate`, `completed` iff either side is completed, identity fields
untouched — and creates no new book row (the count and table length are
unchanged). -/
theorem merge_matched_book_unioned (st : DB) (bm : List (Nat × Nat)) (c : Nat)
    (eb : ExtBook) (t : String) (b : Book)
    (ht : eb.title = some t) (hf : findBook st.books t eb.totalPages = some b) :
    processBook st bm c eb = Except.ok (updateBookState st b.id eb, pushMap bm eb.id b.id, c)
    ∧ (updateBookState st b.id eb).books.length = st.books.length
    ∧ (unionBook b eb).startDate = min b.startDate eb.startDate
    ∧ (unionBook b eb).lastReadDate = max b.lastReadDate eb.lastReadDate
    ∧ ((unionBook b eb).status = Status.completed ↔
        (b.status = Status.completed ∨ eb.status = Status.completed))
    ∧ (unionBook b eb).id = b.id
    ∧ (unionBook b eb).title = b.title
    ∧ (unionBook b eb).totalPages = b.totalPages := by
  refine ⟨by simp [processBook, ht, hf], by simp [updateBookState, updBooks], ?_, ?_, ?_,
    rfl, rfl, rfl⟩
  · show (if eb.startDate < b.startDate then eb.startDate else b.startDate)
        = min b.startDate eb.startDate
    split <;> omega
  · show (if eb.lastReadDate > b.lastReadDate then eb.lastReadDate else b.lastReadDate)
        = max b.lastReadDate eb.lastReadDate
    split <;> omega
  · cases hb : b.status <;> cases he : eb.status <;> simp [unionBook, hb, he]

/-- Witness for C2 at a concrete store and foreign book. -/
theorem merge_matched_book_unioned_witness :
    (⟨5, some "Dune", 412, 50, 300, Status.completed⟩ : ExtBook).title = some "Dune"
    ∧ findBook [⟨1, "Dune", 412, 100, 200, Status.reading⟩] "Dune"
        (⟨5, some "Dune", 412, 50, 300, Status.completed⟩ : ExtBook).totalPages
        = some ⟨1, "Dune", 412, 100, 200, Status.reading⟩
    ∧ (processBook ⟨[⟨1, "Dune", 412, 100, 200, Status.reading⟩], [], 2, 1⟩ [] 0
          ⟨5, some "Dune", 412, 50, 300, Status.completed⟩ = Except.ok
          (updateBookState ⟨[⟨1, "Dune", 412, 100, 200, Status.reading⟩], [], 2, 1⟩ 1
             ⟨5, some "Dune", 412, 50, 300, Status.completed⟩, pushMap [] 5 1, 0)
        ∧ (updateBookState ⟨[⟨1, "Dune", 412, 100, 200, Status.reading⟩], [], 2, 1⟩ 1
             ⟨5, some "Dune", 412, 50, 300, Status.completed⟩).books.length
            = [(⟨1, "Dune", 412, 100, 200, Status.reading⟩ : Book)].length
        ∧ (unionBook ⟨1, "Dune", 412, 100, 200, Status.reading⟩
             ⟨5, some "Dune", 412, 50, 300, Status.completed⟩).startDate = min 100 50
        ∧ (unionBook ⟨1, "Dune", 412, 100, 200, Status.reading⟩
             ⟨5, some "Dune", 412, 50, 300, Status.completed⟩).lastReadDate = max 200 300
        ∧ ((unionBook ⟨1, "Dune", 412, 100, 200, Status.reading⟩
             ⟨5, some "Dune", 412, 50, 300, Status.completed⟩).status = Status.completed ↔
            (Status.reading = Status.completed ∨ Status.completed = Status.completed))
        ∧ (unionBook ⟨1, "Dune", 412, 100, 200, Status.reading⟩
             ⟨5, some "Dune", 412, 50, 300, Status.completed⟩).id = 1
        ∧ (unionBook ⟨1, "Dune", 412, 100, 200, Status.reading⟩
             ⟨5, some "Dune", 412, 50, 300, Status.completed⟩).title = "Dune"
        ∧ (unionBook ⟨1, "Dune", 412, 100, 200, Status.reading⟩
             ⟨5, some "Dune", 412, 50, 300, Status.completed⟩).totalPages = 412) :=
  ⟨rfl, by decide,
   merge_matched_book_unioned ⟨[⟨1, "Dune", 412, 100, 200, Status.reading⟩], [], 2, 1⟩ [] 0
     ⟨5, some "Dune", 412, 50, 300, Status.completed⟩ "Dune"
     ⟨1, "Dune", 412, 100, 200, Status.reading⟩ rfl (by decide)⟩

/-! ## Claim C5: day-bucketed log deduplication -/

/-- Membership in the code's `[startOfDay, endOfDay]` window is exactly
calendar-day equality. -/
theorem sameDay_iff (x d : Int) :
    (startOfDay d ≤ x ∧ x ≤ endOfDay d) ↔ calendarDay x = calendarDay d := by
  simp only [startOfDay, endOfDay, calendarDay]
  omega

/-- Claim C5: a resolvable foreign log is skipped exactly when a stored log
with the same book, same page and the same calendar day exists (times of
day do not matter); otherwise it is inserted as a new row that keeps the
foreign log's exact timestamp and page. -/
theorem log_dedup_day_bucketed (st : DB) (bm : List (Nat × Nat)) (c : Nat)
    (el : ExtLog) (localId : Nat)
    (hres : lookupMap bm el.bookId = some localId) (h0 : localId ≠ 0) :
    (processLog st bm c el = (st, c) ↔
      ∃ l ∈ st.logs, l.bookId = localId ∧ l.page = el.page ∧
        calendarDay l.date = calendarDay el.date)
    ∧ ((¬ ∃ l ∈ st.logs, l.bookId = localId ∧ l.page = el.page ∧
          calendarDay l.date = calendarDay el.date) →
        processLog st bm c el = (insertLogState st localId el, c + 1))
    ∧ (insertLogState st localId el).logs = st.logs ++ [newLogOf st localId el]
    ∧ (newLogOf st localId el).date = el.date
    ∧ (newLogOf st localId el).page = el.page := by
  have hiff : (st.logs.any (fun l =>
        decide (l.bookId = localId ∧ l.page = el.page ∧
                startOfDay el.date ≤ l.date ∧ l.date ≤ endOfDay el.date)) = true)
      ↔ ∃ l ∈ st.logs, l.bookId = localId ∧ l.page = el.page ∧
          calendarDay l.date = calendarDay el.date := by
    simp only [List.any_eq_true, decide_eq_true_eq]
    constructor
    · rintro ⟨l, hl, h1, h2, h3, h4⟩
      exact ⟨l, hl, h1, h2, (sameDay_iff l.date el.date).mp ⟨h3, h4⟩⟩
    · rintro ⟨l, hl, h1, h2, h3⟩
      obtain ⟨h4, h5⟩ := (sameDay_iff l.date el.date).mpr h3
      exact ⟨l, hl, h1, h2, h4, h5⟩
  by_cases hb : st.logs.any (fun l =>
      decide (l.bookId = localId ∧ l.page = el.page ∧
              startOfDay el.date ≤ l.date ∧ l.date ≤ endOfDay el.date)) = true
  · refine ⟨?_, ?_, rfl, rfl, rfl⟩
    · simp only [processLog, hres, if_neg h0, if_pos hb]
      simp only [true_iff]
      exact hiff.mp hb
    · intro hnd
      exact absurd (hiff.mp hb) hnd
  · refine ⟨?_, ?_, rfl, rfl, rfl⟩
    · have hstep : processLog st bm c el = (insertLogState st localId el, c + 1) := by
        simp only [processLog, hres, if_neg h0, if_neg hb]
      constructor
      · intro heq
        rw [hstep] at heq
        have := congrArg Prod.snd heq
        simp at this
      · intro hex
        exact absurd (hiff.mpr hex) hb
    · intro _
      simp only [processLog, hres, if_neg h0, if_neg hb]

/-- Witness for C5: day-1 page-100 duplicate is skipped; a day-3 log for the
same page would be inserted with its exact timestamp. -/
theorem log_dedup_day_bucketed_witness :
    lookupMap [(7, 1)] 7 = some 1
    ∧ (1 : Nat) ≠ 0
    ∧ ((processLog ⟨[], [⟨1, 1, 3600000, 100⟩], 2, 2⟩ [(7, 1)] 0 ⟨7, 7200000, 100⟩
          = (⟨[], [⟨1, 1, 3600000, 100⟩], 2, 2⟩, 0) ↔
        ∃ l ∈ (⟨[], [⟨1, 1, 3600000, 100⟩], 2, 2⟩ : DB).logs, l.bookId = 1 ∧ l.page = 100 ∧
          calendarDay l.date = calendarDay 7200000)
      ∧ ((¬ ∃ l ∈ (⟨[], [⟨1, 1, 3600000, 100⟩], 2, 2⟩ : DB).logs, l.bookId = 1 ∧ l.page = 100 ∧
            calendarDay l.date = calendarDay 7200000) →
          processLog ⟨[], [⟨1, 1, 3600000, 100⟩], 2, 2⟩ [(7, 1)] 0 ⟨7, 7200000, 100⟩ =
            (insertLogState ⟨[], [⟨1, 1, 3600000, 100⟩], 2, 2⟩ 1 ⟨7, 7200000, 100⟩, 1))
      ∧ (insertLogState ⟨[], [⟨1, 1, 3600000, 100⟩], 2, 2⟩ 1 ⟨7, 7200000, 100⟩).logs
          = [⟨1, 1, 3600000, 100⟩] ++
            [newLogOf ⟨[], [⟨1, 1, 3600000, 100⟩], 2, 2⟩ 1 ⟨7, 7200000, 100⟩]
      ∧ (newLogOf ⟨[], [⟨1, 1, 3600000, 100⟩], 2, 2⟩ 1 ⟨7, 7200000, 100⟩).date = 7200000
      ∧ (newLogOf ⟨[], [⟨1, 1, 3600000, 100⟩], 2, 2⟩ 1 ⟨7, 7200000, 100⟩).page = 100) :=
  ⟨by decide, by decide,
   log_dedup_day_bucketed ⟨[], [⟨1, 1, 3600000, 100⟩], 2, 2⟩ [(7, 1)] 0 ⟨7, 7200000, 100⟩ 1
     (by decide) (by decide)⟩

/-! ## Claim C3: atomicity of the merge transaction -/

/-- A foreign book without an indexable title aborts the whole book phase. -/
theorem bookPhase_error_of_untitled :
    ∀ (ebs : List ExtBook) (acc : DB × List (Nat × Nat) × Nat),
      (∃ eb ∈ ebs, eb.title = none) →
      bookPhase ebs acc = Except.error MergeErr.dataError := by
  intro ebs
  induction ebs with
  | nil => intro acc h; simp at h
  | cons eb rest ih =>
    intro acc h
    rcases h with ⟨e, he, hnone⟩
    rcases List.mem_cons.mp he with rfl | hmem
    · simp [bookPhase, processBook, hnone]
    · cases hte : eb.title with
      | none => simp [bookPhase, processBook, hte]
      | some t =>
        cases hf : findBook acc.1.books t eb.totalPages <;>
          simp [bookPhase, processBook, hte, hf] <;>
          exact ih _ ⟨e, hmem, hnone⟩

/-- Claim C3: the merge is all-or-nothing. If any foreign book record in the
snapshot makes the transaction body throw (here: a record with no indexable
`title` key, wherever it sits in the snapshot), the whole transaction aborts
and the store is exactly the one from before the merge; and in general an
aborted `importDB` never changes the store. -/
theorem merge_atomic (st : DB) (X : ExtData)
    (h : ∃ eb ∈ X.books, eb.title = none) :
    importDB st X = (st, Except.error MergeErr.dataError)
    ∧ ∀ (st2 : DB) (Y : ExtData) (e : MergeErr),
        (importDB st2 Y).2 = Except.error e → (importDB st2 Y).1 = st2 := by
  constructor
  · have hb := bookPhase_error_of_untitled X.books (st, [], 0) h
    simp [importDB, mergeBody, hb]
  · intro st2 Y e he
    cases hm : mergeBody Y st2 with
    | ok r => simp [importDB, hm] at he
    | error e2 => simp [importDB, hm]

/-- Witness for C3: a snapshot whose second book record is malformed leaves
a one-book store untouched even though its first record was processed. -/
theorem merge_atomic_witness :
    (∃ eb ∈ [⟨4, some "Dune", 412, 5, 30, Status.completed⟩,
             (⟨9, none, 100, 1, 2, Status.reading⟩ : ExtBook)], eb.title = none)
    ∧ (importDB ⟨[⟨1, "Dune", 412, 10, 20, Status.reading⟩], [], 2, 1⟩
        ⟨[⟨4, some "Dune", 412, 5, 30, Status.completed⟩,
          ⟨9, none, 100, 1, 2, Status.reading⟩], []⟩
        = (⟨[⟨1, "Dune", 412, 10, 20, Status.reading⟩], [], 2, 1⟩,
           Except.error MergeErr.dataError)
       ∧ ∀ (st2 : DB) (Y : ExtData) (e : MergeErr),
          (importDB st2 Y).2 = Except.error e → (importDB st2 Y).1 = st2) :=
  ⟨⟨⟨9, none, 100, 1, 2, Status.reading⟩, by decide, rfl⟩,
   merge_atomic ⟨[⟨1, "Dune", 412, 10, 20, Status.reading⟩], [], 2, 1⟩
     ⟨[⟨4, some "Dune", 412, 5, 30, Status.completed⟩,
       ⟨9, none, 100, 1, 2, Status.reading⟩], []⟩
     ⟨⟨9, none, 100, 1, 2, Status.reading⟩, by decide, rfl⟩⟩

end ReadLog

namespace ReadLog

/-! ## Step classification and evolution lemmas for the book phase -/

theorem updElem_id (i : Nat) (eb : ExtBook) (x : Book) :
    (if x.id = i then unionBook x eb else x).id = x.id := by
  split <;> rfl

theorem updElem_title (i : Nat) (eb : ExtBook) (x : Book) :
    (if x.id = i then unionBook x eb else x).title = x.title := by
  split <;> rfl

theorem updElem_totalPages (i : Nat) (eb : ExtBook) (x : Book) :
    (if x.id = i then unionBook x eb else x).totalPages = x.totalPages := by
  split <;> rfl

theorem updElem_start_le (i : Nat) (eb : ExtBook) (x : Book) :
    (if x.id = i then unionBook x eb else x).startDate ≤ x.startDate := by
  split
  · show (if eb.startDate < x.startDate then eb.startDate else x.startDate) ≤ x.startDate
    split <;> omega
  · exact le_refl _

theorem updElem_last_ge (i : Nat) (eb : ExtBook) (x : Book) :
    x.lastReadDate ≤ (if x.id = i then unionBook x eb else x).lastReadDate := by
  split
  · show x.lastReadDate ≤ (if eb.lastReadDate > x.lastReadDate then eb.lastReadDate else x.lastReadDate)
    split <;> omega
  · exact le_refl _

theorem updElem_status_mono (i : Nat) (eb : ExtBook) (x : Book)
    (h : x.status = Status.completed) :
    (if x.id = i then unionBook x eb else x).status = Status.completed := by
  split
  · show (if eb.status = Status.completed ∨ x.status = Status.completed
          then Status.completed else Status.reading) = Status.completed
    rw [if_pos (Or.inr h)]
  · exact h

/-- `processBook` succeeds exactly through the union-update branch or the
insert branch. -/
theorem processBook_cases (st : DB) (bm : List (Nat × Nat)) (c : Nat) (eb : ExtBook)
    {acc : DB × List (Nat × Nat) × Nat}
    (h : processBook st bm c eb = Except.ok acc) :
    ∃ t, eb.title = some t ∧
      ((∃ b, findBook st.books t eb.totalPages = some b ∧
          acc = (updateBookState st b.id eb, pushMap bm eb.id b.id, c))
       ∨ (findBook st.books t eb.totalPages = none ∧
          acc = (insertBookState st eb t, pushMap bm eb.id st.nextBookId, c + 1))) := by
  cases hte : eb.title with
  | none => simp [processBook, hte] at h
  | some t =>
    cases hf : findBook st.books t eb.totalPages with
    | some b =>
      simp only [processBook, hte, hf] at h
      exact ⟨t, rfl, Or.inl ⟨b, hf, (Except.ok.injEq _ _).mp h |>.symm⟩⟩
    | none =>
      simp only [processBook, hte, hf] at h
      exact ⟨t, rfl, Or.inr ⟨hf, (Except.ok.injEq _ _).mp h |>.symm⟩⟩

theorem findBook_updBooks (l : List Book) (i : Nat) (eb : ExtBook) (t : String) (tp : Int) :
    findBook (updBooks l i eb) t tp
      = (findBook l t tp).map (fun x => if x.id = i then unionBook x eb else x) := by
  unfold findBook updBooks
  apply find?_map_pred
  intro x
  split <;> rfl

theorem findBook_append_some {l l2 : List Book} {t : String} {tp : Int} {b : Book}
    (h : findBook l t tp = some b) : findBook (l ++ l2) t tp = some b :=
  find?_append_some h

theorem findBook_append_none {l l2 : List Book} {t : String} {tp : Int}
    (h : findBook l t tp = none) : findBook (l ++ l2) t tp = findBook l2 t tp :=
  find?_append_none h

theorem keeps_refl (l : List Book) : Keeps l l :=
  fun b hb => ⟨b, hb, rfl, rfl, rfl⟩

theorem keeps_trans {l1 l2 l3 : List Book} (h1 : Keeps l1 l2) (h2 : Keeps l2 l3) :
    Keeps l1 l3 := by
  intro b hb
  obtain ⟨b2, hb2, e1, e2, e3⟩ := h1 b hb
  obtain ⟨b3, hb3, f1, f2, f3⟩ := h2 b2 hb2
  exact ⟨b3, hb3, f1.trans e1, f2.trans e2, f3.trans e3⟩

theorem keeps_updBooks (l : List Book) (i : Nat) (eb : ExtBook) :
    Keeps l (updBooks l i eb) := by
  intro b hb
  exact ⟨_, List.mem_map_of_mem _ hb, updElem_id i eb b, updElem_title i eb b,
    updElem_totalPages i eb b⟩

theorem keeps_append (l l2 : List Book) : Keeps l (l ++ l2) :=
  fun b hb => ⟨b, List.mem_append_left _ hb, rfl, rfl, rfl⟩

theorem tracks_refl (l : List Book) : Tracks l l :=
  fun _ _ b hb => ⟨b, hb, rfl, rfl, rfl, le_refl _, le_refl _, fun h => h⟩

theorem tracks_trans {l1 l2 l3 : List Book} (h1 : Tracks l1 l2) (h2 : Tracks l2 l3) :
    Tracks l1 l3 := by
  intro t tp b hb
  obtain ⟨b2, hb2, e1, e2, e3, e4, e5, e6⟩ := h1 t tp b hb
  obtain ⟨b3, hb3, f1, f2, f3, f4, f5, f6⟩ := h2 t tp b2 hb2
  exact ⟨b3, hb3, f1.trans e1, f2.trans e2, f3.trans e3, f4.trans e4, e5.trans f5,
    fun h => f6 (e6 h)⟩

theorem tracks_updBooks (l : List Book) (i : Nat) (eb : ExtBook) :
    Tracks l (updBooks l i eb) := by
  intro t tp b hb
  rw [findBook_updBooks, hb, Option.map_some']
  exact ⟨_, rfl, updElem_id i eb b, updElem_title i eb b, updElem_totalPages i eb b,
    updElem_start_le i eb b, updElem_last_ge i eb b, updElem_status_mono i eb b⟩

theorem tracks_append (l : List Book) (l2 : List Book) : Tracks l (l ++ l2) := by
  intro t tp b hb
  exact ⟨b, findBook_append_some hb, rfl, rfl, rfl, le_refl _, le_refl _, fun h => h⟩

/-- The book phase keeps and tracks every stored book, never touches logs,
and only raises the auto-increment counter. -/
theorem bookPhase_evolution :
    ∀ (ebs : List ExtBook) (st : DB) (bm : List (Nat × Nat)) (c : Nat)
      {st2 : DB} {bm2 : List (Nat × Nat)} {c2 : Nat},
      bookPhase ebs (st, bm, c) = Except.ok (st2, bm2, c2) →
      Keeps st.books st2.books ∧ Tracks st.books st2.books
      ∧ st2.logs = st.logs ∧ st2.nextLogId = st.nextLogId
      ∧ st.nextBookId ≤ st2.nextBookId := by
  intro ebs
  induction ebs with
  | nil =>
    intro st bm c st2 bm2 c2 h
    simp only [bookPhase, Except.ok.injEq, Prod.mk.injEq] at h
    obtain ⟨h1, _, _⟩ := h
    subst h1
    exact ⟨keeps_refl _, tracks_refl _, rfl, rfl, le_refl _⟩
  | cons eb rest ih =>
    intro st bm c st2 bm2 c2 h
    cases hp : processBook st bm c eb with
    | error e =>
      simp only [bookPhase, hp] at h
      exact Except.noConfusion h
    | ok acc1 =>
      simp only [bookPhase, hp] at h
      obtain ⟨t, ht, hcase⟩ := processBook_cases st bm c eb hp
      rcases hcase with ⟨b, hf, rfl⟩ | ⟨hf, rfl⟩
      · obtain ⟨k1, k2, k3, k4, k5⟩ := ih (updateBookState st b.id eb) _ _ h
        refine ⟨keeps_trans (keeps_updBooks _ _ _) k1,
          tracks_trans (tracks_updBooks _ _ _) k2, k3, k4, k5⟩
      · obtain ⟨k1, k2, k3, k4, k5⟩ := ih (insertBookState st eb t) _ _ h
        refine ⟨keeps_trans (keeps_append _ _) k1,
          tracks_trans (tracks_append _ _) k2, k3, k4, ?_⟩
        exact le_trans (Nat.le_succ _) k5

/-- `processLog` either leaves the state alone or inserts one log row. -/
theorem processLog_cases (st : DB) (bm : List (Nat × Nat)) (c : Nat) (el : ExtLog) :
    processLog st bm c el = (st, c)
    ∨ ∃ localId, lookupMap bm el.bookId = some localId ∧ localId ≠ 0 ∧
        processLog st bm c el = (insertLogState st localId el, c + 1) := by
  cases h : lookupMap bm el.bookId with
  | none => left; simp only [processLog, h]
  | some localId =>
    by_cases h0 : localId = 0
    · left
      simp only [processLog, h]
      rw [if_pos h0]
    · by_cases hb : st.logs.any (fun l =>
          decide (l.bookId = localId ∧ l.page = el.page ∧
                  startOfDay el.date ≤ l.date ∧ l.date ≤ endOfDay el.date)) = true
      · left
        simp only [processLog, h]
        rw [if_neg h0, if_pos hb]
      · right
        refine ⟨localId, rfl, h0, ?_⟩
        simp only [processLog, h]
        rw [if_neg h0, if_neg hb]

/-- The log phase never touches the book table and only appends log rows. -/
theorem logPhase_effect :
    ∀ (els : List ExtLog) (st : DB) (c : Nat) (bm : List (Nat × Nat)),
      (logPhase els (st, c) bm).1.books = st.books
      ∧ (logPhase els (st, c) bm).1.nextBookId = st.nextBookId
      ∧ ∃ tail, (logPhase els (st, c) bm).1.logs = st.logs ++ tail := by
  intro els
  induction els with
  | nil => intro st c bm; exact ⟨rfl, rfl, [], by simp [logPhase]⟩
  | cons el rest ih =>
    intro st c bm
    rcases processLog_cases st bm c el with hskip | ⟨localId, _, _, hins⟩
    · have : logPhase (el :: rest) (st, c) bm = logPhase rest (st, c) bm := by
        simp only [logPhase, hskip]
      rw [this]
      exact ih st c bm
    · have : logPhase (el :: rest) (st, c) bm
          = logPhase rest (insertLogState st localId el, c + 1) bm := by
        simp only [logPhase, hins]
      rw [this]
      obtain ⟨k1, k2, tail, k3⟩ := ih (insertLogState st localId el) (c + 1) bm
      refine ⟨k1, k2, newLogOf st localId el :: tail, ?_⟩
      rw [k3]
      simp [insertLogState]

/-- Either the merge aborts and the store is untouched, or it commits the
book phase followed by the log phase. -/
theorem importDB_state (st : DB) (X : ExtData) :
    (importDB st X).1 = st
    ∨ ∃ st1 bm ba, bookPhase X.books (st, [], 0) = Except.ok (st1, bm, ba)
        ∧ (importDB st X).1 = (logPhase X.logs (st1, 0) bm).1 := by
  cases h : bookPhase X.books (st, [], 0) with
  | error e => left; simp [importDB, mergeBody, h]
  | ok r =>
    right
    obtain ⟨st1, bm, ba⟩ := r
    exact ⟨st1, bm, ba, rfl, by simp [importDB, mergeBody, h]⟩

/-! ## Claim C9: the merge never deletes or rewrites history -/

/-- Claim C9: after any merge, the stored logs are exactly the old logs plus
appended ones (so every pre-existing log survives with identical id, book,
date and page), and every pre-existing book survives under its primary key
with `title` and `totalPages` untouched — only `startDate`, `lastReadDate`
and `status` are ever rewritten. -/
theorem merge_never_deletes (st : DB) (X : ExtData) :
    (∃ tail, (importDB st X).1.logs = st.logs ++ tail)
    ∧ ∀ b ∈ st.books, ∃ b2 ∈ (importDB st X).1.books,
        b2.id = b.id ∧ b2.title = b.title ∧ b2.totalPages = b.totalPages := by
  rcases importDB_state st X with heq | ⟨st1, bm, ba, hb, heq⟩
  · rw [heq]
    exact ⟨⟨[], by simp⟩, fun b hb => ⟨b, hb, rfl, rfl, rfl⟩⟩
  · obtain ⟨k1, _, tail1, k3⟩ := logPhase_effect X.logs st1 0 bm
    obtain ⟨e1, _, e3, _, _⟩ := bookPhase_evolution X.books st [] 0 hb
    constructor
    · refine ⟨tail1, ?_⟩
      rw [heq, k3, e3]
    · intro b hbm
      obtain ⟨b2, hb2, f1, f2, f3⟩ := e1 b hbm
      refine ⟨b2, ?_, f1, f2, f3⟩
      rw [heq, k1]
      exact hb2

/-- Witness for C9 at a concrete store and snapshot. -/
theorem merge_never_deletes_witness :
    (∃ tail, (importDB ⟨[⟨1, "Dune", 412, 10, 20, Status.reading⟩], [⟨1, 1, 15, 100⟩], 2, 2⟩
        ⟨[⟨4, some "Dune", 412, 5, 30, Status.completed⟩], [⟨4, 200000000, 412⟩]⟩).1.logs
      = [⟨1, 1, 15, 100⟩] ++ tail)
    ∧ ∀ b ∈ [(⟨1, "Dune", 412, 10, 20, Status.reading⟩ : Book)],
        ∃ b2 ∈ (importDB ⟨[⟨1, "Dune", 412, 10, 20, Status.reading⟩], [⟨1, 1, 15, 100⟩], 2, 2⟩
          ⟨[⟨4, some "Dune", 412, 5, 30, Status.completed⟩], [⟨4, 200000000, 412⟩]⟩).1.books,
          b2.id = b.id ∧ b2.title = b.title ∧ b2.totalPages = b.totalPages :=
  merge_never_deletes ⟨[⟨1, "Dune", 412, 10, 20, Status.reading⟩], [⟨1, 1, 15, 100⟩], 2, 2⟩
    ⟨[⟨4, some "Dune", 412, 5, 30, Status.completed⟩], [⟨4, 200000000, 412⟩]⟩

end ReadLog

namespace ReadLog

/-! ## Claim C4: natural-key uniqueness is preserved -/

theorem countP_map_pred {α : Type} (f : α → α) (p : α → Bool)
    (h : ∀ x, p (f x) = p x) :
    ∀ l : List α, (l.map f).countP p = l.countP p := by
  intro l
  induction l with
  | nil => rfl
  | cons a l ih => simp [List.countP_cons, h, ih]

theorem findBook_none_iff (l : List Book) (t : String) (tp : Int) :
    findBook l t tp = none ↔ ∀ b ∈ l, ¬(b.title = t ∧ b.totalPages = tp) := by
  unfold findBook
  rw [List.find?_eq_none]
  constructor
  · intro h b hb hc
    have := h b hb
    simp [hc.1, hc.2] at this
  · intro h b hb
    simp only [Bool.and_eq_true, beq_iff_eq]
    intro hc
    exact h b hb hc

theorem keyUnique_updBooks (l : List Book) (i : Nat) (eb : ExtBook)
    (h : keyUnique l) : keyUnique (updBooks l i eb) := by
  unfold keyUnique updBooks at *
  rw [List.pairwise_map]
  refine h.imp ?_
  intro a b hab
  rw [updElem_title, updElem_title, updElem_totalPages, updElem_totalPages]
  exact hab

theorem keyUnique_insert (l : List Book) (nb : Book) (h : keyUnique l)
    (hnew : ∀ b ∈ l, ¬(b.title = nb.title ∧ b.totalPages = nb.totalPages)) :
    keyUnique (l ++ [nb]) := by
  unfold keyUnique at *
  rw [List.pairwise_append]
  refine ⟨h, List.pairwise_singleton _ _, ?_⟩
  intro a ha b hb
  rw [List.mem_singleton] at hb
  subst hb
  have := hnew a ha
  tauto

theorem keyExists_of_keeps {l1 l2 : List Book} (hk : Keeps l1 l2) {t : String} {tp : Int}
    (h : keyExists l1 t tp) : keyExists l2 t tp := by
  obtain ⟨b, hb, h1, h2⟩ := h
  obtain ⟨b2, hb2, _, e2, e3⟩ := hk b hb
  exact ⟨b2, hb2, by rw [e2, h1], by rw [e3, h2]⟩

theorem countKey_updBooks (l : List Book) (i : Nat) (eb : ExtBook) (t : String) (tp : Int) :
    countKey (updBooks l i eb) t tp = countKey l t tp := by
  unfold countKey updBooks
  apply countP_map_pred
  intro x
  split <;> rfl

theorem countKey_append (l l2 : List Book) (t : String) (tp : Int) :
    countKey (l ++ l2) t tp = countKey l t tp + countKey l2 t tp := by
  unfold countKey
  exact List.countP_append _ _ _

theorem countKey_single_ne (nb : Book) (t : String) (tp : Int)
    (h : ¬(nb.title = t ∧ nb.totalPages = tp)) :
    countKey [nb] t tp = 0 := by
  unfold countKey
  simp only [List.countP_cons, List.countP_nil, Nat.zero_add]
  rw [if_neg]
  simp only [Bool.and_eq_true, beq_iff_eq]
  exact h

/-- The book phase preserves key uniqueness and never adds a row for a
natural key that already exists. -/
theorem bookPhase_keys :
    ∀ (ebs : List ExtBook) (st : DB) (bm : List (Nat × Nat)) (c : Nat)
      {st2 : DB} {bm2 : List (Nat × Nat)} {c2 : Nat},
      bookPhase ebs (st, bm, c) = Except.ok (st2, bm2, c2) →
      (keyUnique st.books → keyUnique st2.books)
      ∧ (∀ t tp, keyExists st.books t tp →
          countKey st2.books t tp = countKey st.books t tp) := by
  intro ebs
  induction ebs with
  | nil =>
    intro st bm c st2 bm2 c2 h
    simp only [bookPhase, Except.ok.injEq, Prod.mk.injEq] at h
    obtain ⟨h1, _, _⟩ := h
    subst h1
    exact ⟨fun hu => hu, fun t tp _ => rfl⟩
  | cons eb rest ih =>
    intro st bm c st2 bm2 c2 h
    cases hp : processBook st bm c eb with
    | error e => simp only [bookPhase, hp] at h; exact Except.noConfusion h
    | ok acc1 =>
      simp only [bookPhase, hp] at h
      obtain ⟨t, _, hcase⟩ := processBook_cases st bm c eb hp
      rcases hcase with ⟨b, hf, rfl⟩ | ⟨hf, rfl⟩
      · obtain ⟨k1, k2⟩ := ih (updateBookState st b.id eb) _ _ h
        constructor
        · intro hu
          exact k1 (keyUnique_updBooks _ _ _ hu)
        · intro t1 tp1 hex
          rw [k2 t1 tp1 (keyExists_of_keeps (keeps_updBooks st.books b.id eb) hex)]
          exact countKey_updBooks _ _ _ _ _
      · obtain ⟨k1, k2⟩ := ih (insertBookState st eb t) _ _ h
        have hnone := (findBook_none_iff st.books t eb.totalPages).mp hf
        constructor
        · intro hu
          apply k1
          apply keyUnique_insert _ _ hu
          intro b2 hb2 hc
          exact hnone b2 hb2 hc
        · intro t1 tp1 hex
          have hex1 : keyExists (insertBookState st eb t).books t1 tp1 :=
            keyExists_of_keeps (keeps_append st.books _) hex
          rw [k2 t1 tp1 hex1]
          show countKey (st.books ++ [newBookOf st eb t]) t1 tp1 = countKey st.books t1 tp1
          rw [countKey_append]
          have hz : countKey [newBookOf st eb t] t1 tp1 = 0 := by
            apply countKey_single_ne
            intro hc
            obtain ⟨hc1, hc2⟩ := hc
            obtain ⟨b3, hb3, e1, e2⟩ := hex
            exact hnone b3 hb3 ⟨by rw [e1, ← hc1]; rfl, by rw [e2, ← hc2]; rfl⟩
          omega

/-- Claim C4: if no two stored books share a natural key, that is still true
after merging any snapshot (even one with internal natural-key duplicates),
and the number of rows holding a natural key that already existed locally is
unchanged — the merge never inserts a book for an existing key. -/
theorem merge_preserves_key_uniqueness (st : DB) (X : ExtData) (h : keyUnique st.books) :
    keyUnique (importDB st X).1.books
    ∧ ∀ t tp, keyExists st.books t tp →
        countKey (importDB st X).1.books t tp = countKey st.books t tp := by
  rcases importDB_state st X with heq | ⟨st1, bm, ba, hb, heq⟩
  · rw [heq]
    exact ⟨h, fun t tp _ => rfl⟩
  · obtain ⟨k1, k2⟩ := bookPhase_keys X.books st [] 0 hb
    have hbooks : (importDB st X).1.books = st1.books := by
      rw [heq, (logPhase_effect X.logs st1 0 bm).1]
    rw [hbooks]
    exact ⟨k1 h, k2⟩

/-- Witness for C4: a snapshot holding two copies of the same new title and
one copy of an existing title leaves the store duplicate-free. -/
theorem merge_preserves_key_uniqueness_witness :
    keyUnique [(⟨1, "Dune", 412, 10, 20, Status.reading⟩ : Book)]
    ∧ (keyUnique (importDB ⟨[⟨1, "Dune", 412, 10, 20, Status.reading⟩], [], 2, 1⟩
        ⟨[⟨4, some "Dune", 412, 5, 30, Status.completed⟩,
          ⟨5, some "Emma", 300, 7, 8, Status.reading⟩,
          ⟨6, some "Emma", 300, 9, 11, Status.reading⟩], []⟩).1.books
      ∧ ∀ t tp, keyExists [(⟨1, "Dune", 412, 10, 20, Status.reading⟩ : Book)] t tp →
          countKey (importDB ⟨[⟨1, "Dune", 412, 10, 20, Status.reading⟩], [], 2, 1⟩
            ⟨[⟨4, some "Dune", 412, 5, 30, Status.completed⟩,
              ⟨5, some "Emma", 300, 7, 8, Status.reading⟩,
              ⟨6, some "Emma", 300, 9, 11, Status.reading⟩], []⟩).1.books t tp
            = countKey [(⟨1, "Dune", 412, 10, 20, Status.reading⟩ : Book)] t tp) :=
  ⟨by unfold keyUnique; exact List.pairwise_singleton _ _,
   merge_preserves_key_uniqueness ⟨[⟨1, "Dune", 412, 10, 20, Status.reading⟩], [], 2, 1⟩
     ⟨[⟨4, some "Dune", 412, 5, 30, Status.completed⟩,
       ⟨5, some "Emma", 300, 7, 8, Status.reading⟩,
       ⟨6, some "Emma", 300, 9, 11, Status.reading⟩], []⟩
     (by unfold keyUnique; exact List.pairwise_singleton _ _)⟩

end ReadLog

namespace ReadLog

/-! ## Claim C10: falsy foreign book ids -/

theorem pushMap_zero (bm : List (Nat × Nat)) (v : Nat) : pushMap bm 0 v = bm := by
  simp [pushMap]

theorem pushMap_keys {bm : List (Nat × Nat)} {k v : Nat}
    (h : ∀ p ∈ bm, p.1 ≠ 0) : ∀ p ∈ pushMap bm k v, p.1 ≠ 0 := by
  unfold pushMap
  split
  · intro p hp
    rcases List.mem_cons.mp hp with rfl | hmem
    · simpa using (by assumption : k ≠ 0)
    · exact h p hmem
  · exact h

theorem lookupMap_zero {bm : List (Nat × Nat)} (h : ∀ p ∈ bm, p.1 ≠ 0) :
    lookupMap bm 0 = none := by
  unfold lookupMap
  rw [List.find?_eq_none.mpr]
  · rfl
  · intro p hp
    simpa using h p hp

/-- The book phase only ever binds truthy foreign ids in the map. -/
theorem bookPhase_keys_nonzero :
    ∀ (ebs : List ExtBook) (st : DB) (bm : List (Nat × Nat)) (c : Nat)
      {st2 : DB} {bm2 : List (Nat × Nat)} {c2 : Nat},
      bookPhase ebs (st, bm, c) = Except.ok (st2, bm2, c2) →
      (∀ p ∈ bm, p.1 ≠ 0) → ∀ p ∈ bm2, p.1 ≠ 0 := by
  intro ebs
  induction ebs with
  | nil =>
    intro st bm c st2 bm2 c2 h hz
    simp only [bookPhase, Except.ok.injEq, Prod.mk.injEq] at h
    obtain ⟨_, h2, _⟩ := h
    subst h2
    exact hz
  | cons eb rest ih =>
    intro st bm c st2 bm2 c2 h hz
    cases hp : processBook st bm c eb with
    | error e => simp only [bookPhase, hp] at h; exact Except.noConfusion h
    | ok acc1 =>
      simp only [bookPhase, hp] at h
      obtain ⟨t, _, hcase⟩ := processBook_cases st bm c eb hp
      rcases hcase with ⟨b, _, rfl⟩ | ⟨_, rfl⟩
      · exact ih _ _ _ h (pushMap_keys hz)
      · exact ih _ _ _ h (pushMap_keys hz)

/-- Logs with a falsy book reference are invisible to the log phase when the
map holds no falsy key. -/
theorem logPhase_filter_zero :
    ∀ (els : List ExtLog) (st : DB) (c : Nat) (bm : List (Nat × Nat)),
      (∀ p ∈ bm, p.1 ≠ 0) →
      logPhase (els.filter (fun el => el.bookId != 0)) (st, c) bm
        = logPhase els (st, c) bm := by
  intro els
  induction els with
  | nil => intro st c bm _; rfl
  | cons el rest ih =>
    intro st c bm h
    by_cases hz : el.bookId = 0
    · have hfilter : (el :: rest).filter (fun el => el.bookId != 0)
          = rest.filter (fun el => el.bookId != 0) := by
        simp [List.filter_cons, hz]
      have hskip : processLog st bm c el = (st, c) := by
        have hlk : lookupMap bm el.bookId = none := by
          rw [hz]; exact lookupMap_zero h
        simp [processLog, hlk]
      rw [hfilter, ih st c bm h]
      conv_rhs => rw [logPhase, hskip]
    · have hfilter : (el :: rest).filter (fun el => el.bookId != 0)
          = el :: rest.filter (fun el => el.bookId != 0) := by
        simp [List.filter_cons, hz]
      rw [hfilter]
      show logPhase (rest.filter (fun el => el.bookId != 0)) (processLog st bm c el) bm
          = logPhase rest (processLog st bm c el) bm
      exact ih (processLog st bm c el).1 (processLog st bm c el).2 bm h

/-- Claim C10: a foreign book with a falsy (absent or zero) id is still
merged — the store change and the `booksImported` count are exactly those of
the same record with a truthy id — but no map entry is recorded for it, so
every foreign log with a falsy book reference is silently dropped: merging
the snapshot equals merging the snapshot with those logs removed, leaving
both the store and `logsImported` untouched by them. -/
theorem zero_id_book_logs_skipped (st : DB) (X : ExtData) (bm : List (Nat × Nat))
    (c : Nat) (eb : ExtBook) (heb : eb.id = 0) :
    processBook st bm c eb
      = Except.map (fun r => (r.1, bm, r.2.2)) (processBook st bm c { eb with id := 1 })
    ∧ importDB st ⟨X.books, X.logs.filter (fun el => el.bookId != 0)⟩ = importDB st X := by
  constructor
  · cases hte : eb.title with
    | none => simp [processBook, hte, Except.map]
    | some t =>
      cases hf : findBook st.books t eb.totalPages with
      | some b =>
        simp [processBook, hte, hf, Except.map, pushMap, heb, updateBookState, updBooks,
          unionBook]
      | none =>
        simp [processBook, hte, hf, Except.map, pushMap, heb, insertBookState, newBookOf]
  · cases hb : bookPhase X.books (st, [], 0) with
    | error e => simp [importDB, mergeBody, hb]
    | ok r =>
      obtain ⟨st1, bm1, ba⟩ := r
      have hz : ∀ p ∈ bm1, p.1 ≠ 0 :=
        bookPhase_keys_nonzero X.books st [] 0 hb (by intro p hp; simp at hp)
      simp only [importDB, mergeBody, hb]
      rw [logPhase_filter_zero X.logs st1 0 bm1 hz]

/-- Witness for C10: a zero-id foreign book is merged, yet its log
(referencing book id 0) is dropped without affecting store or counts. -/
theorem zero_id_book_logs_skipped_witness :
    (⟨0, some "Emma", 300, 7, 8, Status.reading⟩ : ExtBook).id = 0
    ∧ (processBook ⟨[], [], 1, 1⟩ [] 0 ⟨0, some "Emma", 300, 7, 8, Status.reading⟩
        = Except.map (fun r => (r.1, [], r.2.2))
          (processBook ⟨[], [], 1, 1⟩ [] 0
            { (⟨0, some "Emma", 300, 7, 8, Status.reading⟩ : ExtBook) with id := 1 })
      ∧ importDB ⟨[], [], 1, 1⟩
          ⟨[⟨0, some "Emma", 300, 7, 8, Status.reading⟩],
           ([⟨0, 15, 42⟩] : List ExtLog).filter (fun el => el.bookId != 0)⟩
        = importDB ⟨[], [], 1, 1⟩
            ⟨[⟨0, some "Emma", 300, 7, 8, Status.reading⟩], [⟨0, 15, 42⟩]⟩) :=
  ⟨rfl,
   zero_id_book_logs_skipped ⟨[], [], 1, 1⟩
     ⟨[⟨0, some "Emma", 300, 7, 8, Status.reading⟩], [⟨0, 15, 42⟩]⟩ [] 0
     ⟨0, some "Emma", 300, 7, 8, Status.reading⟩ rfl⟩

end ReadLog

namespace ReadLog

/-! ## Wellformedness preservation and absorption: machinery for idempotence -/

theorem WF_updateBookState (st : DB) (i : Nat) (eb : ExtBook) (h : WF st) :
    WF (updateBookState st i eb) := by
  constructor
  · show ((updBooks st.books i eb).map (fun b => b.id)).Nodup
    have heq : (updBooks st.books i eb).map (fun b => b.id)
        = st.books.map (fun b => b.id) := by
      unfold updBooks
      rw [List.map_map]
      apply List.map_congr_left
      intro x _
      exact updElem_id i eb x
    rw [heq]
    exact h.1
  · intro b2 hb2
    obtain ⟨x, hx, rfl⟩ := List.mem_map.mp hb2
    show (if x.id = i then unionBook x eb else x).id < st.nextBookId
    rw [updElem_id]
    exact h.2 x hx

theorem WF_insertBookState (st : DB) (eb : ExtBook) (t : String) (h : WF st) :
    WF (insertBookState st eb t) := by
  constructor
  · show ((st.books ++ [newBookOf st eb t]).map (fun b => b.id)).Nodup
    rw [List.map_append]
    refine List.Nodup.append h.1 (List.nodup_singleton _) ?_
    intro a ha hb
    rw [List.map_singleton, List.mem_singleton] at hb
    obtain ⟨x, hx, rfl⟩ := List.mem_map.mp ha
    have := h.2 x hx
    have hbid : (newBookOf st eb t).id = st.nextBookId := rfl
    rw [hb] at this
    simp [newBookOf] at this
  · intro b2 hb2
    show b2.id < st.nextBookId + 1
    rcases List.mem_append.mp hb2 with hm | hm
    · exact Nat.lt_succ_of_lt (h.2 b2 hm)
    · rw [List.mem_singleton] at hm
      subst hm
      show st.nextBookId < st.nextBookId + 1
      omega

theorem bookPhase_WF :
    ∀ (ebs : List ExtBook) (st : DB) (bm : List (Nat × Nat)) (c : Nat)
      {st2 : DB} {bm2 : List (Nat × Nat)} {c2 : Nat},
      bookPhase ebs (st, bm, c) = Except.ok (st2, bm2, c2) → WF st → WF st2 := by
  intro ebs
  induction ebs with
  | nil =>
    intro st bm c st2 bm2 c2 h hw
    simp only [bookPhase, Except.ok.injEq, Prod.mk.injEq] at h
    obtain ⟨h1, _, _⟩ := h
    subst h1
    exact hw
  | cons eb rest ih =>
    intro st bm c st2 bm2 c2 h hw
    cases hp : processBook st bm c eb with
    | error e => simp only [bookPhase, hp] at h; exact Except.noConfusion h
    | ok acc1 =>
      simp only [bookPhase, hp] at h
      obtain ⟨t, _, hcase⟩ := processBook_cases st bm c eb hp
      rcases hcase with ⟨b, _, rfl⟩ | ⟨_, rfl⟩
      · exact ih _ _ _ h (WF_updateBookState st b.id eb hw)
      · exact ih _ _ _ h (WF_insertBookState st eb t hw)

theorem findBook_updBooks_self {l : List Book} {t : String} {tp : Int} {b : Book}
    (hf : findBook l t tp = some b) (eb : ExtBook) :
    findBook (updBooks l b.id eb) t tp = some (unionBook b eb) := by
  rw [findBook_updBooks, hf, Option.map_some', if_pos rfl]

theorem findBook_singleton_self (st : DB) (eb : ExtBook) (t : String) :
    findBook [newBookOf st eb t] t eb.totalPages = some (newBookOf st eb t) := by
  simp [findBook, newBookOf]

theorem unionBook_start_le_ext (b : Book) (eb : ExtBook) :
    (unionBook b eb).startDate ≤ eb.startDate ∨ (unionBook b eb).startDate ≤ b.startDate := by
  show (if eb.startDate < b.startDate then eb.startDate else b.startDate) ≤ eb.startDate
    ∨ (if eb.startDate < b.startDate then eb.startDate else b.startDate) ≤ b.startDate
  split <;> omega

theorem absorbed_of_tracks {l1 l2 : List Book} (ht : Tracks l1 l2) {eb : ExtBook}
    (h : Absorbed l1 eb) : Absorbed l2 eb := by
  obtain ⟨t, b, ht1, hf, h1, h2, h3⟩ := h
  obtain ⟨b2, hf2, _, _, _, e4, e5, e6⟩ := ht t eb.totalPages b hf
  exact ⟨t, b2, ht1, hf2, e4.trans h1, h2.trans e5, fun hc => e6 (h3 hc)⟩

/-- One processed foreign book is absorbed by the store it leaves behind. -/
theorem processBook_absorbs (st : DB) (bm : List (Nat × Nat)) (c : Nat) (eb : ExtBook)
    {acc : DB × List (Nat × Nat) × Nat}
    (h : processBook st bm c eb = Except.ok acc) :
    Absorbed acc.1.books eb := by
  obtain ⟨t, ht, hcase⟩ := processBook_cases st bm c eb h
  rcases hcase with ⟨b, hf, rfl⟩ | ⟨hf, rfl⟩
  · refine ⟨t, unionBook b eb, ht, findBook_updBooks_self hf eb, ?_, ?_, ?_⟩
    · show (if eb.startDate < b.startDate then eb.startDate else b.startDate) ≤ eb.startDate
      split <;> omega
    · show eb.lastReadDate ≤ (if eb.lastReadDate > b.lastReadDate then eb.lastReadDate else b.lastReadDate)
      split <;> omega
    · intro hc
      show (if eb.status = Status.completed ∨ b.status = Status.completed
            then Status.completed else Status.reading) = Status.completed
      rw [if_pos (Or.inl hc)]
  · refine ⟨t, newBookOf st eb t, ht, ?_, le_refl _, le_refl _, fun hc => hc⟩
    show findBook (st.books ++ [newBookOf st eb t]) t eb.totalPages = some (newBookOf st eb t)
    rw [findBook_append_none hf]
    exact findBook_singleton_self st eb t

/-- After a successful book phase, every processed foreign book is absorbed
by the resulting store, and `bookMap` is exactly the map computed from the
final store. -/
theorem mapOf_cons {books : List Book} {eb : ExtBook} (rest : List ExtBook)
    (bm : List (Nat × Nat)) {t : String} {b : Book}
    (ht : eb.title = some t) (hf : findBook books t eb.totalPages = some b) :
    mapOf books (eb :: rest) bm = mapOf books rest (pushMap bm eb.id b.id) := by
  unfold mapOf
  rw [List.foldl_cons, ht]
  have hb : (some t).bind (fun t2 => findBook books t2 eb.totalPages)
      = findBook books t eb.totalPages := rfl
  rw [hb, hf]

theorem bookPhase_post :
    ∀ (ebs : List ExtBook) (st : DB) (bm : List (Nat × Nat)) (c : Nat)
      {st2 : DB} {bm2 : List (Nat × Nat)} {c2 : Nat},
      bookPhase ebs (st, bm, c) = Except.ok (st2, bm2, c2) →
      (∀ eb ∈ ebs, Absorbed st2.books eb) ∧ bm2 = mapOf st2.books ebs bm := by
  intro ebs
  induction ebs with
  | nil =>
    intro st bm c st2 bm2 c2 h
    simp only [bookPhase, Except.ok.injEq, Prod.mk.injEq] at h
    obtain ⟨_, h2, _⟩ := h
    subst h2
    exact ⟨by intro eb hm; simp at hm, rfl⟩
  | cons eb rest ih =>
    intro st bm c st2 bm2 c2 h
    cases hp : processBook st bm c eb with
    | error e => simp only [bookPhase, hp] at h; exact Except.noConfusion h
    | ok acc1 =>
      simp only [bookPhase, hp] at h
      obtain ⟨t, ht, hcase⟩ := processBook_cases st bm c eb hp
      rcases hcase with ⟨b, hf, rfl⟩ | ⟨hf, rfl⟩
      · obtain ⟨habs, hmap⟩ := ih (updateBookState st b.id eb) _ _ h
        have htr := (bookPhase_evolution rest (updateBookState st b.id eb) _ _ h).2.1
        have hf1 : findBook (updateBookState st b.id eb).books t eb.totalPages
            = some (unionBook b eb) := findBook_updBooks_self hf eb
        obtain ⟨b2, hf2, hid, _, _, _, _, _⟩ := htr t eb.totalPages _ hf1
        constructor
        · intro e he
          rcases List.mem_cons.mp he with rfl | hmem
          · exact absorbed_of_tracks htr (processBook_absorbs st bm c e hp)
          · exact habs e hmem
        · rw [hmap]
          show mapOf st2.books rest (pushMap bm eb.id b.id)
              = mapOf st2.books (eb :: rest) bm
          rw [mapOf_cons rest bm ht hf2, hid]
          rfl
      · obtain ⟨habs, hmap⟩ := ih (insertBookState st eb t) _ _ h
        have htr := (bookPhase_evolution rest (insertBookState st eb t) _ _ h).2.1
        have hf1 : findBook (insertBookState st eb t).books t eb.totalPages
            = some (newBookOf st eb t) := by
          show findBook (st.books ++ [newBookOf st eb t]) t eb.totalPages = _
          rw [findBook_append_none hf]
          exact findBook_singleton_self st eb t
        obtain ⟨b2, hf2, hid, _, _, _, _, _⟩ := htr t eb.totalPages _ hf1
        constructor
        · intro e he
          rcases List.mem_cons.mp he with rfl | hmem
          · exact absorbed_of_tracks htr (processBook_absorbs st bm c e hp)
          · exact habs e hmem
        · rw [hmap]
          show mapOf st2.books rest (pushMap bm eb.id st.nextBookId)
              = mapOf st2.books (eb :: rest) bm
          rw [mapOf_cons rest bm ht hf2, hid]
          rfl

end ReadLog

namespace ReadLog

theorem findBook_mem {l : List Book} {t : String} {tp : Int} {b : Book}
    (hf : findBook l t tp = some b) : b ∈ l :=
  List.mem_of_find?_eq_some hf

theorem findBook_key {l : List Book} {t : String} {tp : Int} {b : Book}
    (hf : findBook l t tp = some b) : b.title = t ∧ b.totalPages = tp := by
  have := List.find?_some hf
  simpa [beq_iff_eq] using this

theorem nodup_id_inj {l : List Book} (h : (l.map (fun b => b.id)).Nodup)
    {x y : Book} (hx : x ∈ l) (hy : y ∈ l) (hid : x.id = y.id) : x = y :=
  List.inj_on_of_nodup_map h hx hy hid

/-- A local book that already absorbs a foreign record is not changed by the
union update. -/
theorem unionBook_absorbed (b : Book) (eb : ExtBook)
    (h1 : b.startDate ≤ eb.startDate) (h2 : eb.lastReadDate ≤ b.lastReadDate)
    (h3 : eb.status = Status.completed → b.status = Status.completed) :
    unionBook b eb = b := by
  unfold unionBook
  rw [if_neg (by omega : ¬ eb.startDate < b.startDate),
      if_neg (by omega : ¬ eb.lastReadDate > b.lastReadDate)]
  have hs : (if eb.status = Status.completed ∨ b.status = Status.completed
      then Status.completed else Status.reading) = b.status := by
    cases hb : b.status with
    | completed => rw [if_pos (Or.inr rfl)]
    | reading =>
      rw [if_neg]
      rintro (hc | hc)
      · have hcc := h3 hc
        rw [hb] at hcc
        exact Status.noConfusion hcc
      · exact Status.noConfusion hc
  rw [hs]

theorem updBooks_absorbed {l : List Book} {t : String} {tp : Int} {b : Book} (eb : ExtBook)
    (hnd : (l.map (fun b => b.id)).Nodup)
    (hf : findBook l t tp = some b)
    (hu : unionBook b eb = b) :
    updBooks l b.id eb = l := by
  unfold updBooks
  have hall : ∀ x ∈ l, (if x.id = b.id then unionBook x eb else x) = x := by
    intro x hx
    split
    · have hxb : x = b := nodup_id_inj hnd hx (findBook_mem hf) (by assumption)
      rw [hxb, hu]
    · rfl
  have h2 : l.map (fun x => if x.id = b.id then unionBook x eb else x) = l.map id :=
    List.map_congr_left (fun x hx => hall x hx)
  rw [h2, List.map_id]

/-- In a store that absorbs the whole snapshot and has unique primary keys,
the book phase is a no-op apart from rebuilding the map. -/
theorem bookPhase_fixpoint :
    ∀ (ebs : List ExtBook) (st : DB) (bm : List (Nat × Nat)) (c : Nat),
      (st.books.map (fun b => b.id)).Nodup →
      (∀ eb ∈ ebs, Absorbed st.books eb) →
      bookPhase ebs (st, bm, c) = Except.ok (st, mapOf st.books ebs bm, c) := by
  intro ebs
  induction ebs with
  | nil => intro st bm c _ _; rfl
  | cons eb rest ih =>
    intro st bm c hnd habs
    obtain ⟨t, b, ht, hf, h1, h2, h3⟩ := habs eb (List.mem_cons_self eb rest)
    have hu : unionBook b eb = b := unionBook_absorbed b eb h1 h2 h3
    have hupd : updateBookState st b.id eb = st := by
      unfold updateBookState
      rw [updBooks_absorbed eb hnd hf hu]
    have hstep : processBook st bm c eb = Except.ok (st, pushMap bm eb.id b.id, c) := by
      simp only [processBook, ht, hf]
      rw [hupd]
    have hone : bookPhase (eb :: rest) (st, bm, c)
        = bookPhase rest (st, pushMap bm eb.id b.id, c) := by
      simp only [bookPhase, hstep]
    rw [hone, ih st _ c hnd (fun e he => habs e (List.mem_cons_of_mem eb he)),
        mapOf_cons rest bm ht hf]

theorem self_day_bounds (t : Int) : startOfDay t ≤ t ∧ t ≤ endOfDay t := by
  simp only [startOfDay, endOfDay]
  omega

/-- After the log phase, every processed foreign log is absorbed by the
resulting log table. -/
theorem logPhase_post :
    ∀ (els : List ExtLog) (st : DB) (c : Nat) (bm : List (Nat × Nat)),
      ∀ el ∈ els, LogAbsorbed (logPhase els (st, c) bm).1.logs bm el := by
  intro els
  induction els with
  | nil => intro st c bm el he; simp at he
  | cons el rest ih =>
    intro st c bm e he
    rcases List.mem_cons.mp he with heq | hmem
    · subst heq
      have hstep : logPhase (e :: rest) (st, c) bm
          = logPhase rest (processLog st bm c e) bm := rfl
      intro localId hlk h0
      rw [hstep]
      by_cases hb : st.logs.any (fun l =>
          decide (l.bookId = localId ∧ l.page = e.page ∧
                  startOfDay e.date ≤ l.date ∧ l.date ≤ endOfDay e.date)) = true
      · obtain ⟨l, hl, hprop⟩ := List.any_eq_true.mp hb
        rw [decide_eq_true_eq] at hprop
        have hskip : processLog st bm c e = (st, c) := by
          simp only [processLog, hlk]
          rw [if_neg h0, if_pos hb]
        obtain ⟨_, _, tail, hlogs⟩ :=
          logPhase_effect rest (processLog st bm c e).1 (processLog st bm c e).2 bm
        refine ⟨l, ?_, hprop.1, hprop.2.1, hprop.2.2.1, hprop.2.2.2⟩
        rw [hlogs, hskip]
        exact List.mem_append_left _ hl
      · have hins : processLog st bm c e = (insertLogState st localId e, c + 1) := by
          simp only [processLog, hlk]
          rw [if_neg h0, if_neg hb]
        obtain ⟨_, _, tail, hlogs⟩ :=
          logPhase_effect rest (processLog st bm c e).1 (processLog st bm c e).2 bm
        refine ⟨newLogOf st localId e, ?_, rfl, rfl,
          (self_day_bounds e.date).1, (self_day_bounds e.date).2⟩
        rw [hlogs, hins]
        simp [insertLogState]
    · have hstep : logPhase (el :: rest) (st, c) bm
          = logPhase rest (processLog st bm c el) bm := rfl
      rw [hstep]
      exact ih (processLog st bm c el).1 (processLog st bm c el).2 bm _ hmem

end ReadLog

namespace ReadLog

/-- A log table that absorbs the whole snapshot makes the log phase a no-op. -/
theorem logPhase_fixpoint :
    ∀ (els : List ExtLog) (st : DB) (c : Nat) (bm : List (Nat × Nat)),
      (∀ el ∈ els, LogAbsorbed st.logs bm el) →
      logPhase els (st, c) bm = (st, c) := by
  intro els
  induction els with
  | nil => intro st c bm _; rfl
  | cons el rest ih =>
    intro st c bm h
    have hskip : processLog st bm c el = (st, c) := by
      cases hlk : lookupMap bm el.bookId with
      | none => simp only [processLog, hlk]
      | some localId =>
        by_cases h0 : localId = 0
        · simp only [processLog, hlk]
          rw [if_pos h0]
        · obtain ⟨l, hl, p1, p2, p3, p4⟩ :=
            h el (List.mem_cons_self el rest) localId hlk h0
          have hb : st.logs.any (fun l =>
              decide (l.bookId = localId ∧ l.page = el.page ∧
                      startOfDay el.date ≤ l.date ∧ l.date ≤ endOfDay el.date)) = true := by
            rw [List.any_eq_true]
            exact ⟨l, hl, by rw [decide_eq_true_eq]; exact ⟨p1, p2, p3, p4⟩⟩
          simp only [processLog, hlk]
          rw [if_neg h0, if_pos hb]
    have hone : logPhase (el :: rest) (st, c) bm
        = logPhase rest (processLog st bm c el) bm := rfl
    rw [hone, hskip]
    exact ih st c bm (fun e he => h e (List.mem_cons_of_mem el he))

/-- With every foreign book titled, the book phase cannot abort. -/
theorem bookPhase_ok_of_titled :
    ∀ (ebs : List ExtBook) (acc : DB × List (Nat × Nat) × Nat),
      (∀ eb ∈ ebs, eb.title ≠ none) →
      ∃ r, bookPhase ebs acc = Except.ok r := by
  intro ebs
  induction ebs with
  | nil => intro acc _; exact ⟨acc, rfl⟩
  | cons eb rest ih =>
    intro acc h
    cases hte : eb.title with
    | none => exact absurd hte (h eb (List.mem_cons_self eb rest))
    | some t =>
      cases hf : findBook acc.1.books t eb.totalPages with
      | some b =>
        have hstep : processBook acc.1 acc.2.1 acc.2.2 eb = Except.ok
            (updateBookState acc.1 b.id eb, pushMap acc.2.1 eb.id b.id, acc.2.2) := by
          simp [processBook, hte, hf]
        obtain ⟨r, hr⟩ := ih (updateBookState acc.1 b.id eb, pushMap acc.2.1 eb.id b.id, acc.2.2)
          (fun e he => h e (List.mem_cons_of_mem eb he))
        refine ⟨r, ?_⟩
        simp only [bookPhase, hstep]
        exact hr
      | none =>
        have hstep : processBook acc.1 acc.2.1 acc.2.2 eb = Except.ok
            (insertBookState acc.1 eb t, pushMap acc.2.1 eb.id acc.1.nextBookId, acc.2.2 + 1) := by
          simp [processBook, hte, hf]
        obtain ⟨r, hr⟩ := ih
          (insertBookState acc.1 eb t, pushMap acc.2.1 eb.id acc.1.nextBookId, acc.2.2 + 1)
          (fun e he => h e (List.mem_cons_of_mem eb he))
        refine ⟨r, ?_⟩
        simp only [bookPhase, hstep]
        exact hr

theorem WF_books_next {st st2 : DB} (hb : st2.books = st.books)
    (hn : st2.nextBookId = st.nextBookId) (h : WF st) : WF st2 := by
  constructor
  · rw [hb]
    exact h.1
  · intro b hbm
    rw [hb] at hbm
    rw [hn]
    exact h.2 b hbm

/-! ## Claim C1: merging the same snapshot twice is a no-op the second time -/

/-- Claim C1: on a wellformed store (unique primary keys, fresh counter) and
a decodable snapshot (every foreign book carries a title key), running the
merge a second time with the same snapshot changes nothing: the store —
hence the Book set, the Log set and each book's derived current progress —
is identical, and the second call reports zero `booksImported` and zero
`logsImported`. -/
theorem merge_idempotent (st : DB) (X : ExtData) (hWF : WF st)
    (hT : ∀ eb ∈ X.books, eb.title ≠ none) :
    importDB (importDB st X).1 X = ((importDB st X).1, Except.ok (0, 0))
    ∧ ∀ bid, currentProgress (importDB (importDB st X).1 X).1 bid
        = currentProgress (importDB st X).1 bid := by
  obtain ⟨r1, hb1⟩ := bookPhase_ok_of_titled X.books (st, [], 0) hT
  obtain ⟨st1, bm1, ba1⟩ := r1
  have himp1 : importDB st X = ((logPhase X.logs (st1, 0) bm1).1,
      Except.ok (ba1, (logPhase X.logs (st1, 0) bm1).2)) := by
    simp [importDB, mergeBody, hb1]
  set stF := (logPhase X.logs (st1, 0) bm1).1 with hstF
  have hbooksF : stF.books = st1.books := (logPhase_effect X.logs st1 0 bm1).1
  have hnextF : stF.nextBookId = st1.nextBookId := (logPhase_effect X.logs st1 0 bm1).2.1
  have hWF1 : WF st1 := bookPhase_WF X.books st [] 0 hb1 hWF
  have hWFF : WF stF := WF_books_next hbooksF hnextF hWF1
  obtain ⟨habs1, hmap1⟩ := bookPhase_post X.books st [] 0 hb1
  have habsF : ∀ eb ∈ X.books, Absorbed stF.books eb := by
    intro eb he
    rw [hbooksF]
    exact habs1 eb he
  have hb2 : bookPhase X.books (stF, [], 0)
      = Except.ok (stF, mapOf stF.books X.books [], 0) :=
    bookPhase_fixpoint X.books stF [] 0 hWFF.1 habsF
  have hmapF : mapOf stF.books X.books [] = bm1 := by
    rw [hbooksF]
    exact hmap1.symm
  have hlabs : ∀ el ∈ X.logs, LogAbsorbed stF.logs bm1 el := by
    intro el he
    exact logPhase_post X.logs st1 0 bm1 el he
  have hl2 : logPhase X.logs (stF, 0) bm1 = (stF, 0) :=
    logPhase_fixpoint X.logs stF 0 bm1 hlabs
  have himp2 : importDB stF X = (stF, Except.ok (0, 0)) := by
    simp only [importDB, mergeBody, hb2, hmapF, hl2]
  constructor
  · rw [himp1]
    exact himp2
  · intro bid
    rw [himp1]
    show currentProgress (importDB stF X).1 bid = currentProgress stF bid
    rw [himp2]

/-- Witness for C1: one overlapping book with a same-day duplicate log, one
new book with its log; the second merge is the identity and reports zeros. -/
theorem merge_idempotent_witness :
    WF ⟨[⟨1, "Dune", 412, 100, 200, Status.reading⟩], [⟨1, 1, 86400005, 100⟩], 2, 2⟩
    ∧ (∀ eb ∈ (⟨[⟨4, some "Dune", 412, 50, 300, Status.completed⟩,
                  ⟨5, some "Emma", 300, 70, 80, Status.reading⟩],
                 [⟨4, 86400000, 100⟩, ⟨4, 259200000, 412⟩, ⟨5, 90000000, 30⟩]⟩ : ExtData).books,
        eb.title ≠ none)
    ∧ (importDB (importDB ⟨[⟨1, "Dune", 412, 100, 200, Status.reading⟩],
          [⟨1, 1, 86400005, 100⟩], 2, 2⟩
          ⟨[⟨4, some "Dune", 412, 50, 300, Status.completed⟩,
            ⟨5, some "Emma", 300, 70, 80, Status.reading⟩],
           [⟨4, 86400000, 100⟩, ⟨4, 259200000, 412⟩, ⟨5, 90000000, 30⟩]⟩).1
          ⟨[⟨4, some "Dune", 412, 50, 300, Status.completed⟩,
            ⟨5, some "Emma", 300, 70, 80, Status.reading⟩],
           [⟨4, 86400000, 100⟩, ⟨4, 259200000, 412⟩, ⟨5, 90000000, 30⟩]⟩
        = ((importDB ⟨[⟨1, "Dune", 412, 100, 200, Status.reading⟩],
            [⟨1, 1, 86400005, 100⟩], 2, 2⟩
            ⟨[⟨4, some "Dune", 412, 50, 300, Status.completed⟩,
              ⟨5, some "Emma", 300, 70, 80, Status.reading⟩],
             [⟨4, 86400000, 100⟩, ⟨4, 259200000, 412⟩, ⟨5, 90000000, 30⟩]⟩).1,
           Except.ok (0, 0))
       ∧ ∀ bid, currentProgress (importDB (importDB ⟨[⟨1, "Dune", 412, 100, 200, Status.reading⟩],
            [⟨1, 1, 86400005, 100⟩], 2, 2⟩
            ⟨[⟨4, some "Dune", 412, 50, 300, Status.completed⟩,
              ⟨5, some "Emma", 300, 70, 80, Status.reading⟩],
             [⟨4, 86400000, 100⟩, ⟨4, 259200000, 412⟩, ⟨5, 90000000, 30⟩]⟩).1
            ⟨[⟨4, some "Dune", 412, 50, 300, Status.completed⟩,
              ⟨5, some "Emma", 300, 70, 80, Status.reading⟩],
             [⟨4, 86400000, 100⟩, ⟨4, 259200000, 412⟩, ⟨5, 90000000, 30⟩]⟩).1 bid
          = currentProgress (importDB ⟨[⟨1, "Dune", 412, 100, 200, Status.reading⟩],
              [⟨1, 1, 86400005, 100⟩], 2, 2⟩
              ⟨[⟨4, some "Dune", 412, 50, 300, Status.completed⟩,
                ⟨5, some "Emma", 300, 70, 80, Status.reading⟩],
               [⟨4, 86400000, 100⟩, ⟨4, 259200000, 412⟩, ⟨5, 90000000, 30⟩]⟩).1 bid) :=
  ⟨by unfold WF; decide, by decide,
   merge_idempotent ⟨[⟨1, "Dune", 412, 100, 200, Status.reading⟩],
       [⟨1, 1, 86400005, 100⟩], 2, 2⟩
     ⟨[⟨4, some "Dune", 412, 50, 300, Status.completed⟩,
       ⟨5, some "Emma", 300, 70, 80, Status.reading⟩],
      [⟨4, 86400000, 100⟩, ⟨4, 259200000, 412⟩, ⟨5, 90000000, 30⟩]⟩
     (by unfold WF; decide) (by decide)⟩

end ReadLog

namespace ReadLog

/-! ## Claim C8: the union fields form a commutative fold -/

theorem statusJoin_comm (a b : Status) : statusJoin a b = statusJoin b a := by
  cases a <;> cases b <;> rfl

theorem statusJoin_assoc (a b c : Status) :
    statusJoin (statusJoin a b) c = statusJoin a (statusJoin b c) := by
  cases a <;> cases b <;> cases c <;> rfl

theorem join3_comm (a b : Int × Int × Status) : join3 a b = join3 b a := by
  unfold join3
  rw [min_comm, max_comm, statusJoin_comm]

theorem join3_assoc (a b c : Int × Int × Status) :
    join3 (join3 a b) c = join3 a (join3 b c) := by
  unfold join3
  simp only [min_assoc, max_assoc, statusJoin_assoc]

theorem jOpt_assoc (a b c : Option (Int × Int × Status)) :
    jOpt (jOpt a b) c = jOpt a (jOpt b c) := by
  cases a <;> cases b <;> cases c <;> simp [jOpt, join3_assoc]

theorem jOpt_comm (a b : Option (Int × Int × Status)) : jOpt a b = jOpt b a := by
  cases a <;> cases b <;> simp [jOpt, join3_comm]

theorem opFold_step (o : Option (Int × Int × Status)) (x : Int × Int × Status)
    (l : List (Int × Int × Status)) :
    opFold o (x :: l) = opFold (jOpt o (some x)) l := by
  unfold opFold
  rw [List.foldl_cons]
  cases o <;> rfl

theorem opFold_eq_jOpt (l : List (Int × Int × Status)) :
    ∀ o, opFold o l = jOpt o (opFold none l) := by
  induction l with
  | nil => intro o; cases o <;> rfl
  | cons x l ih =>
    intro o
    rw [opFold_step, opFold_step none x l, ih (jOpt o (some x)), ih (jOpt none (some x))]
    rw [show jOpt none (some x) = some x from rfl, jOpt_assoc]

theorem opFold_comm (o : Option (Int × Int × Status))
    (a b : List (Int × Int × Status)) :
    opFold (opFold o a) b = opFold (opFold o b) a := by
  rw [opFold_eq_jOpt b (opFold o a), opFold_eq_jOpt a (opFold o b),
      opFold_eq_jOpt a o, opFold_eq_jOpt b o,
      jOpt_assoc, jOpt_assoc, jOpt_comm (opFold none a) (opFold none b)]

theorem unionBook_triple (b : Book) (eb : ExtBook) :
    ((unionBook b eb).startDate, (unionBook b eb).lastReadDate, (unionBook b eb).status)
      = join3 (b.startDate, b.lastReadDate, b.status)
          (eb.startDate, eb.lastReadDate, eb.status) := by
  have h1 : (unionBook b eb).startDate = min b.startDate eb.startDate := by
    show (if eb.startDate < b.startDate then eb.startDate else b.startDate) = _
    split <;> omega
  have h2 : (unionBook b eb).lastReadDate = max b.lastReadDate eb.lastReadDate := by
    show (if eb.lastReadDate > b.lastReadDate then eb.lastReadDate else b.lastReadDate) = _
    split <;> omega
  have h3 : (unionBook b eb).status = statusJoin b.status eb.status := by
    show (if eb.status = Status.completed ∨ b.status = Status.completed
          then Status.completed else Status.reading) = _
    cases b.status <;> cases eb.status <;> rfl
  rw [h1, h2, h3]
  rfl

theorem keyTriples_cons_hit {eb : ExtBook} {t : String} {tp : Int} (rest : List ExtBook)
    (h : eb.title = some t ∧ eb.totalPages = tp) :
    keyTriples (eb :: rest) t tp
      = (eb.startDate, eb.lastReadDate, eb.status) :: keyTriples rest t tp := by
  unfold keyTriples
  rw [List.filter_cons, if_pos (by rw [decide_eq_true_eq]; exact h)]
  rfl

theorem keyTriples_cons_miss {eb : ExtBook} {t : String} {tp : Int} (rest : List ExtBook)
    (h : ¬(eb.title = some t ∧ eb.totalPages = tp)) :
    keyTriples (eb :: rest) t tp = keyTriples rest t tp := by
  unfold keyTriples
  rw [List.filter_cons, if_neg (by rw [decide_eq_true_eq]; exact h)]

theorem findBook_singleton_ne {nb : Book} {t : String} {tp : Int}
    (h : ¬(nb.title = t ∧ nb.totalPages = tp)) : findBook [nb] t tp = none := by
  unfold findBook
  rw [List.find?_cons_of_neg, List.find?_nil]
  simp only [Bool.and_eq_true, beq_iff_eq]
  exact h

/-- Per-key characterization of the book phase: the union fields of the key
after the phase are the join-fold of the snapshot's triples for that key over
the prior value. -/
theorem bookPhase_char :
    ∀ (ebs : List ExtBook) (st : DB) (bm : List (Nat × Nat)) (c : Nat)
      {st2 : DB} {bm2 : List (Nat × Nat)} {c2 : Nat},
      bookPhase ebs (st, bm, c) = Except.ok (st2, bm2, c2) →
      WF st →
      ∀ t tp, unionFields st2.books t tp
        = opFold (unionFields st.books t tp) (keyTriples ebs t tp) := by
  intro ebs
  induction ebs with
  | nil =>
    intro st bm c st2 bm2 c2 h _ t tp
    simp only [bookPhase, Except.ok.injEq, Prod.mk.injEq] at h
    obtain ⟨h1, _, _⟩ := h
    subst h1
    rfl
  | cons eb rest ih =>
    intro st bm c st2 bm2 c2 h hWF t tp
    cases hp : processBook st bm c eb with
    | error e => simp only [bookPhase, hp] at h; exact Except.noConfusion h
    | ok acc1 =>
      simp only [bookPhase, hp] at h
      obtain ⟨teb, ht, hcase⟩ := processBook_cases st bm c eb hp
      rcases hcase with ⟨b, hf, rfl⟩ | ⟨hf, rfl⟩
      · have hrec := ih (updateBookState st b.id eb) _ _ h
          (WF_updateBookState st b.id eb hWF) t tp
        by_cases hk : eb.title = some t ∧ eb.totalPages = tp
        · have hteb : teb = t := by
            obtain ⟨hk1, _⟩ := hk
            rw [ht] at hk1
            exact Option.some.inj hk1
          subst hteb
          obtain ⟨_, htp⟩ := hk
          subst htp
          rw [keyTriples_cons_hit rest ⟨ht, rfl⟩, opFold_step, hrec]
          have hF : unionFields st.books teb eb.totalPages
              = some (b.startDate, b.lastReadDate, b.status) := by
            unfold unionFields
            rw [hf]
            rfl
          have hF1 : unionFields (updateBookState st b.id eb).books teb eb.totalPages
              = some ((unionBook b eb).startDate, (unionBook b eb).lastReadDate,
                  (unionBook b eb).status) := by
            unfold unionFields
            rw [show (updateBookState st b.id eb).books = updBooks st.books b.id eb from rfl,
              findBook_updBooks_self hf eb]
            rfl
          rw [hF, hF1, unionBook_triple]
          rfl
        · rw [keyTriples_cons_miss rest hk, hrec]
          have hFeq : unionFields (updateBookState st b.id eb).books t tp
              = unionFields st.books t tp := by
            unfold unionFields
            rw [show (updateBookState st b.id eb).books = updBooks st.books b.id eb from rfl,
              findBook_updBooks]
            cases hx : findBook st.books t tp with
            | none => rfl
            | some x =>
              simp only [Option.map_some']
              have hxb : x ≠ b := by
                intro heq
                subst heq
                obtain ⟨e1, e2⟩ := findBook_key hx
                obtain ⟨f1, f2⟩ := findBook_key hf
                apply hk
                constructor
                · rw [ht, ← e1, f1]
                · rw [← e2, f2]
              have hxid : ¬ x.id = b.id := by
                intro hid
                exact hxb (nodup_id_inj hWF.1 (findBook_mem hx) (findBook_mem hf) hid)
              rw [if_neg hxid]
          rw [hFeq]
      · have hrec := ih (insertBookState st eb teb) _ _ h
          (WF_insertBookState st eb teb hWF) t tp
        by_cases hk : eb.title = some t ∧ eb.totalPages = tp
        · have hteb : teb = t := by
            obtain ⟨hk1, _⟩ := hk
            rw [ht] at hk1
            exact Option.some.inj hk1
          subst hteb
          obtain ⟨_, htp⟩ := hk
          subst htp
          rw [keyTriples_cons_hit rest ⟨ht, rfl⟩, opFold_step, hrec]
          have hF : unionFields st.books teb eb.totalPages = none := by
            unfold unionFields
            rw [hf]
            rfl
          have hF1 : unionFields (insertBookState st eb teb).books teb eb.totalPages
              = some (eb.startDate, eb.lastReadDate, eb.status) := by
            unfold unionFields
            rw [show (insertBookState st eb teb).books
                  = st.books ++ [newBookOf st eb teb] from rfl,
              findBook_append_none hf, findBook_singleton_self]
            rfl
          rw [hF, hF1]
          rfl
        · rw [keyTriples_cons_miss rest hk, hrec]
          have hFeq : unionFields (insertBookState st eb teb).books t tp
              = unionFields st.books t tp := by
            unfold unionFields
            rw [show (insertBookState st eb teb).books
                  = st.books ++ [newBookOf st eb teb] from rfl]
            cases hx : findBook st.books t tp with
            | none =>
              rw [findBook_append_none hx, findBook_singleton_ne]
              intro hc
              apply hk
              constructor
              · rw [ht]
                exact congrArg some hc.1
              · exact hc.2
            | some x =>
              rw [findBook_append_some hx]
          rw [hFeq]

/-- The union fields of a full merge are the join-fold of the snapshot's
key triples, and wellformedness survives. -/
theorem importDB_char (st : DB) (X : ExtData) (hWF : WF st)
    (hT : ∀ eb ∈ X.books, eb.title ≠ none) :
    (∀ t tp, unionFields (importDB st X).1.books t tp
      = opFold (unionFields st.books t tp) (keyTriples X.books t tp))
    ∧ WF (importDB st X).1 := by
  obtain ⟨r, hb⟩ := bookPhase_ok_of_titled X.books (st, [], 0) hT
  obtain ⟨st1, bm, ba⟩ := r
  have hbooks : (importDB st X).1.books = st1.books := by
    have himp : (importDB st X).1 = (logPhase X.logs (st1, 0) bm).1 := by
      simp [importDB, mergeBody, hb]
    rw [himp]
    exact (logPhase_effect X.logs st1 0 bm).1
  have hnext : (importDB st X).1.nextBookId = st1.nextBookId := by
    have himp : (importDB st X).1 = (logPhase X.logs (st1, 0) bm).1 := by
      simp [importDB, mergeBody, hb]
    rw [himp]
    exact (logPhase_effect X.logs st1 0 bm).2.1
  constructor
  · intro t tp
    rw [hbooks]
    exact bookPhase_char X.books st [] 0 hb hWF t tp
  · exact WF_books_next hbooks hnext (bookPhase_WF X.books st [] 0 hb hWF)

/-- Claim C8: per natural key, the resulting `startDate`, `lastReadDate` and
`status` after merging snapshot A then snapshot B equal those after merging
B then A (on a wellformed store, with both snapshots decodable). -/
theorem merge_union_fields_commutative (st : DB) (A B : ExtData) (hWF : WF st)
    (hA : ∀ eb ∈ A.books, eb.title ≠ none) (hB : ∀ eb ∈ B.books, eb.title ≠ none)
    (t : String) (tp : Int) :
    unionFields (importDB (importDB st A).1 B).1.books t tp
      = unionFields (importDB (importDB st B).1 A).1.books t tp := by
  obtain ⟨hcA, hwA⟩ := importDB_char st A hWF hA
  obtain ⟨hcB, hwB⟩ := importDB_char st B hWF hB
  obtain ⟨hcAB, _⟩ := importDB_char (importDB st A).1 B hwA hB
  obtain ⟨hcBA, _⟩ := importDB_char (importDB st B).1 A hwB hA
  rw [hcAB t tp, hcBA t tp, hcA t tp, hcB t tp]
  exact opFold_comm (unionFields st.books t tp) (keyTriples A.books t tp)
    (keyTriples B.books t tp)

/-- Witness for C8 at a concrete store, two snapshots and the Dune key. -/
theorem merge_union_fields_commutative_witness :
    WF ⟨[⟨1, "Dune", 412, 100, 200, Status.reading⟩], [], 2, 1⟩
    ∧ (∀ eb ∈ (⟨[⟨4, some "Dune", 412, 50, 150, Status.reading⟩], []⟩ : ExtData).books,
        eb.title ≠ none)
    ∧ (∀ eb ∈ (⟨[⟨7, some "Dune", 412, 80, 300, Status.completed⟩,
                 ⟨8, some "Emma", 300, 5, 6, Status.reading⟩], []⟩ : ExtData).books,
        eb.title ≠ none)
    ∧ unionFields (importDB (importDB ⟨[⟨1, "Dune", 412, 100, 200, Status.reading⟩], [], 2, 1⟩
          ⟨[⟨4, some "Dune", 412, 50, 150, Status.reading⟩], []⟩).1
          ⟨[⟨7, some "Dune", 412, 80, 300, Status.completed⟩,
            ⟨8, some "Emma", 300, 5, 6, Status.reading⟩], []⟩).1.books "Dune" 412
        = unionFields (importDB (importDB ⟨[⟨1, "Dune", 412, 100, 200, Status.reading⟩], [], 2, 1⟩
            ⟨[⟨7, some "Dune", 412, 80, 300, Status.completed⟩,
              ⟨8, some "Emma", 300, 5, 6, Status.reading⟩], []⟩).1
            ⟨[⟨4, some "Dune", 412, 50, 150, Status.reading⟩], []⟩).1.books "Dune" 412 :=
  ⟨by unfold WF; decide, by decide, by decide,
   merge_union_fields_commutative ⟨[⟨1, "Dune", 412, 100, 200, Status.reading⟩], [], 2, 1⟩
     ⟨[⟨4, some "Dune", 412, 50, 150, Status.reading⟩], []⟩
     ⟨[⟨7, some "Dune", 412, 80, 300, Status.completed⟩,
       ⟨8, some "Emma", 300, 5, 6, Status.reading⟩], []⟩
     (by unfold WF; decide) (by decide) (by decide) "Dune" 412⟩

end ReadLog
